import Mathlib

/-!
Shallow embedding of the market-microstructure analytics core
(volume profile, candle enrichment, auction context, DOM level analytics,
persistent event engine, smart zone grouping) together with proofs of the
behavioural properties claimed for it.

Conventions: JS numbers are embedded as exact rationals `ℚ`, timestamps as
integer milliseconds `Int`.  JS array reads outside the valid index range
yield `undefined` and dereferencing a field of `undefined` throws; such a
throw is modelled by an `Option` result (`none` = the function throws).
-/

inductive Divergence
  | bullish
  | bearish
deriving DecidableEq

structure Candle where
  timestamp : Int
  open' : ℚ
  high : ℚ
  low : ℚ
  close : ℚ
  volume : ℚ
  takerBuyVolume : ℚ
  delta : Option ℚ := none
  cvd : Option ℚ := none
  vwap : Option ℚ := none
  vwapStd : Option ℚ := none
  divergence : Option Divergence := none
deriving DecidableEq

structure ProfileLevel where
  price : ℚ
  volume : ℚ
deriving DecidableEq

structure ProfileMetrics where
  levels : List ProfileLevel
  poc : ℚ
  vah : ℚ
  val : ℚ
  totalVolume : ℚ
  sessionHigh : ℚ
  sessionLow : ℚ
deriving DecidableEq

/-- Inclusive integer range `[lo, hi]`, empty when `hi < lo` — the index set of
the JS `for (let t = lowTick; t <= highTick; t++)` loop. -/
def intRange (lo hi : Int) : List Int :=
  (List.range (hi + 1 - lo).toNat).map (fun (k : Nat) => lo + (k : Int))

/-- Source: `Math.floor(candle.low / tickSize)`. -/
def lowTick (tickSize : ℚ) (c : Candle) : Int :=
  Rat.floor (c.low / tickSize)

/-- Source: `Math.floor(candle.high / tickSize)`. -/
def highTick (tickSize : ℚ) (c : Candle) : Int :=
  Rat.floor (c.high / tickSize)

/-- Source: `numTicks = highTick - lowTick + 1`. -/
def numTicks (tickSize : ℚ) (c : Candle) : Int :=
  highTick tickSize c - lowTick tickSize c + 1

/-- The `(tick, volumePerTick)` contributions produced by the candle
`forEach` loop of `calculateProfile`, flattened in iteration order. -/
def profileContribs (candles : List Candle) (tickSize : ℚ) : List (Int × ℚ) :=
  candles.flatMap (fun c =>
    (intRange (lowTick tickSize c) (highTick tickSize c)).map
      (fun t => (t, c.volume / ((numTicks tickSize c : Int) : ℚ))))

/-- Source: `volumeMap.set(t, (volumeMap.get(t) || 0) + volumePerTick)` — JS `Map.set`
updates an existing key in place and appends a new key, keeping insertion
order. -/
def upsertTick : List (Int × ℚ) → Int → ℚ → List (Int × ℚ)
  | [], t, v => [(t, v)]
  | (t', v') :: rest, t, v =>
    if t' = t then (t', v' + v) :: rest else (t', v') :: upsertTick rest t v

/-- The accumulated `volumeMap` of `calculateProfile`. -/
def volumeMap (candles : List Candle) (tickSize : ℚ) : List (Int × ℚ) :=
  (profileContribs candles tickSize).foldl (fun m tv => upsertTick m tv.1 tv.2) []

/-- Comparator `(a, b) => a.price - b.price`: ascending price. -/
def levelLE (a b : ProfileLevel) : Prop := a.price ≤ b.price

instance : DecidableRel levelLE := fun a b =>
  inferInstanceAs (Decidable (a.price ≤ b.price))

instance : IsTotal ProfileLevel levelLE := ⟨fun a b => le_total a.price b.price⟩

instance : IsTrans ProfileLevel levelLE := ⟨fun _ _ _ h1 h2 => le_trans h1 h2⟩

/-- The `levels` array: map entries `(tickIndex, volume)` sent to records with
price `tickIndex * tickSize`, sorted by ascending price. -/
def profileLevels (candles : List Candle) (tickSize : ℚ) : List ProfileLevel :=
  List.insertionSort levelLE
    ((volumeMap candles tickSize).map (fun tv => ⟨(tv.1 : ℚ) * tickSize, tv.2⟩))

/-- The POC fold: `maxVol` starts at `-1`, strictly-greater comparison keeps
the first maximum.  Returns `(poc, maxVol)`. -/
def pocFold (levels : List ProfileLevel) : ℚ × ℚ :=
  levels.foldl (fun pm l => if l.volume > pm.2 then (l.price, l.volume) else pm) (0, -1)

/-- JS array read `levels[i]`: `undefined` (here `none`) outside `[0, length)`. -/
def getLv? (levels : List ProfileLevel) (i : Int) : Option ProfileLevel :=
  if i < 0 then none else levels[i.toNat]?

/-- The value-area expansion `while` loop of `calculateProfile`.  `fuel` is an
upper bound on the remaining iterations (the caller passes more than the loop
can ever use, see `vaLoop_spec`); the result is `none` when the JS code would
throw by reading `levels[-1]` (or any other out-of-range index). -/
def vaLoop (levels : List ProfileLevel) (targetVolume : ℚ) :
    Nat → Int → Int → ℚ → Option (Int × Int)
  | 0, _, _, _ => none
  | fuel + 1, upperIndex, lowerIndex, currentVolume =>
    let len : Int := levels.length
    if currentVolume < targetVolume ∧ (upperIndex < len - 1 ∨ 0 < lowerIndex) then
      match
        (if upperIndex < len - 1 then
          (getLv? levels (upperIndex + 1)).map (fun l => l.volume) else some 0),
        (if 0 < lowerIndex then
          (getLv? levels (lowerIndex - 1)).map (fun l => l.volume) else some 0) with
      | some nextUpper, some nextLower =>
        if nextUpper > nextLower then
          match getLv? levels (upperIndex + 1) with
          | some lv =>
            if upperIndex + 1 = len - 1 ∧ lowerIndex = 0 then
              some (upperIndex + 1, lowerIndex)
            else
              vaLoop levels targetVolume fuel (upperIndex + 1) lowerIndex
                (currentVolume + lv.volume)
          | none => none
        else
          match getLv? levels (lowerIndex - 1) with
          | some lv =>
            if upperIndex = len - 1 ∧ lowerIndex - 1 = 0 then
              some (upperIndex, lowerIndex - 1)
            else
              vaLoop levels targetVolume fuel upperIndex (lowerIndex - 1)
                (currentVolume + lv.volume)
          | none => none
      | _, _ => none
    else some (upperIndex, lowerIndex)

/-- Source: `Math.max(...)` over a list (the `-Infinity`-seeded fold; the empty case
never occurs behind the non-empty guard). -/
def maxQList : List ℚ → ℚ
  | [] => 0
  | x :: xs => xs.foldl max x

/-- Source: `Math.min(...)` over a list. -/
def minQList : List ℚ → ℚ
  | [] => 0
  | x :: xs => xs.foldl min x

/-- Source: `levels[i]?.price || poc` — the `||` falls back to `poc` both for an
out-of-range index and for a falsy (zero) price. -/
def priceOr (levels : List ProfileLevel) (i : Int) (poc : ℚ) : ℚ :=
  match getLv? levels i with
  | some lv => if lv.price = 0 then poc else lv.price
  | none => poc

/-- Source: `levels.findIndex((l) => l.price === poc)` — JS `findIndex`
returns `-1` when no entry matches. -/
def pocIndexOf (levels : List ProfileLevel) (poc : ℚ) : Int :=
  match levels.findIdx? (fun l => decide (l.price = poc)) with
  | some i => (i : Int)
  | none => -1

/-- Source: `calculateProfile(candles, tickSize)` from `src/utils/analytics.ts`.
Returns `none` when the JS code throws (see `vaLoop`). -/
def calculateProfile (candles : List Candle) (tickSize : ℚ) : Option ProfileMetrics :=
  if candles.isEmpty then
    some { levels := [], poc := 0, vah := 0, val := 0, totalVolume := 0,
           sessionHigh := 0, sessionLow := 0 }
  else
    let sessionHigh := maxQList (candles.map (fun c => c.high))
    let sessionLow := minQList (candles.map (fun c => c.low))
    let totalVolume := (candles.map (fun c => c.volume)).sum
    let levels := profileLevels candles tickSize
    let poc := (pocFold levels).1
    let maxVol := (pocFold levels).2
    let pocIndex : Int := pocIndexOf levels poc
    let targetVolume := totalVolume * (7 / 10)
    (vaLoop levels targetVolume (2 * levels.length + 4) pocIndex pocIndex maxVol).map
      (fun ul =>
        { levels := levels, poc := poc,
          vah := priceOr levels ul.1 poc,
          val := priceOr levels ul.2 poc,
          totalVolume := totalVolume,
          sessionHigh := sessionHigh, sessionLow := sessionLow })

/-- The total volume of the levels whose price lies in `[val, vah]`
(inclusive) — the quantity claimed to cover at least 70% of `totalVolume`. -/
def valueAreaVolume (pm : ProfileMetrics) : ℚ :=
  ((pm.levels.filter (fun lv => decide (pm.val ≤ lv.price ∧ lv.price ≤ pm.vah))).map
    (fun lv => lv.volume)).sum

/-! ### Candle enrichment (`enrichCandlesWithContext`) -/

/-- Source: `new Date(ms).getUTCDate()` — the day of the month (1–31) of a UTC
timestamp, via the standard civil-from-days calendar algorithm. -/
def getUTCDate (ms : Int) : Int :=
  let z := Int.fdiv ms 86400000 + 719468
  let era := Int.fdiv z 146097
  let doe := z - era * 146097
  let yoe := Int.fdiv (doe - Int.fdiv doe 1460 + Int.fdiv doe 36524 - Int.fdiv doe 146096) 365
  let doy := doe - (365 * yoe + Int.fdiv yoe 4 - Int.fdiv yoe 100)
  let mp := Int.fdiv (5 * doy + 2) 153
  doy - Int.fdiv (153 * mp + 2) 5 + 1

structure EnrichAcc where
  cumDelta : ℚ
  cumVol : ℚ
  cumPV : ℚ
  sumSquaredDev : ℚ
  lastTime : Int
deriving DecidableEq

/-- One step of the `candles.map` closure in `enrichCandlesWithContext`.
`vwapStd` is `Math.sqrt(variance)`, which is irrational in general and hence
not representable in the exact-rational embedding; it is left `none` (no
verified claim reads it — the squared-deviation accumulator itself is
tracked faithfully). -/
def enrichStep (acc : EnrichAcc) (c : Candle) : EnrichAcc × Candle :=
  let aggressiveBuy := c.takerBuyVolume
  let aggressiveSell := c.volume - c.takerBuyVolume
  let delta := aggressiveBuy - aggressiveSell
  let date := getUTCDate c.timestamp
  let prevDate := getUTCDate acc.lastTime
  let acc :=
    if acc.lastTime ≠ 0 ∧ date ≠ prevDate then
      { acc with cumDelta := 0, cumVol := 0, cumPV := 0, sumSquaredDev := 0 }
    else acc
  let cumDelta := acc.cumDelta + delta
  let cumVol := acc.cumVol + c.volume
  let cumPV := acc.cumPV + c.close * c.volume
  let typicalPrice := (c.high + c.low + c.close) / 3
  let vwap := if cumVol > 0 then cumPV / cumVol else c.close
  let sumSquaredDev :=
    if cumVol > 0 then
      acc.sumSquaredDev + (typicalPrice - vwap) * (typicalPrice - vwap) * c.volume
    else acc.sumSquaredDev
  (⟨cumDelta, cumVol, cumPV, sumSquaredDev, c.timestamp⟩,
   { c with delta := some delta, cvd := some cumDelta, vwap := some vwap,
            vwapStd := none, divergence := none })

/-- The first (accumulator) pass of `enrichCandlesWithContext`. -/
def enrichPass : EnrichAcc → List Candle → List Candle
  | _, [] => []
  | acc, c :: rest =>
    let sc := enrichStep acc c
    sc.2 :: enrichPass sc.1 rest

/-- JS array read on the enriched candle array. -/
def getC? (l : List Candle) (i : Int) : Option Candle :=
  if i < 0 then none else l[i.toNat]?

/-- Read `enriched[i]?.high`. -/
def cHigh? (l : List Candle) (i : Int) : Option ℚ := (getC? l i).map (fun c => c.high)

/-- Read `enriched[i]?.low`. -/
def cLow? (l : List Candle) (i : Int) : Option ℚ := (getC? l i).map (fun c => c.low)

/-- JS `x > y` where either operand may be `undefined` (then the comparison
is false). -/
def gtOpt : Option ℚ → Option ℚ → Bool
  | some x, some y => decide (x > y)
  | _, _ => false

/-- JS `x < y` with possibly-`undefined` operands. -/
def ltOpt : Option ℚ → Option ℚ → Bool
  | some x, some y => decide (x < y)
  | _, _ => false

/-- The backward scan `for (j = i-2; j >= Math.max(0, i-15); j--)` looking for
the previous pivot high. -/
def findPrevPivotHigh (l : List Candle) (i : Nat) : Option Nat :=
  ((List.range' (i - 15) (i - 1 - (i - 15))).reverse).find? (fun j =>
    gtOpt (cHigh? l j) (cHigh? l ((j : Int) - 1)) &&
    gtOpt (cHigh? l j) (cHigh? l ((j : Int) + 1)))

/-- The backward scan looking for the previous pivot low. -/
def findPrevPivotLow (l : List Candle) (i : Nat) : Option Nat :=
  ((List.range' (i - 15) (i - 1 - (i - 15))).reverse).find? (fun j =>
    ltOpt (cLow? l j) (cLow? l ((j : Int) - 1)) &&
    ltOpt (cLow? l j) (cLow? l ((j : Int) + 1)))

/-- The body of the divergence-detection loop for index `i` (pivot-high
clause followed by pivot-low clause; only `divergence` is written). -/
def divergeAt (l : List Candle) (i : Nat) (curr0 : Candle) : Candle :=
  let curr :=
    if gtOpt (some curr0.high) (cHigh? l ((i : Int) - 1)) &&
        gtOpt (some curr0.high) (cHigh? l ((i : Int) + 1)) then
      match findPrevPivotHigh l i with
      | some pidx =>
        match getC? l pidx with
        | some prev =>
          if curr0.high > prev.high ∧ curr0.delta.getD 0 < prev.delta.getD 0 then
            { curr0 with divergence := some .bearish }
          else curr0
        | none => curr0
      | none => curr0
    else curr0
  if ltOpt (some curr.low) (cLow? l ((i : Int) - 1)) &&
      ltOpt (some curr.low) (cLow? l ((i : Int) + 1)) then
    match findPrevPivotLow l i with
    | some pidx =>
      match getC? l pidx with
      | some prev =>
        if curr.low < prev.low ∧ curr.delta.getD 0 > prev.delta.getD 0 then
          { curr with divergence := some .bullish }
        else curr
      | none => curr
    | none => curr
  else curr

/-- The divergence-detection pass (`for i = LOOKBACK; i < length - 1`): only
the `divergence` field of the candle at `i` is mutated, every other field is
read from the first-pass output. -/
def divergencePass (l : List Candle) : List Candle :=
  l.mapIdx (fun i c => if 3 ≤ i ∧ i + 1 < l.length then divergeAt l i c else c)

/-- Source: `enrichCandlesWithContext(candles)` from `src/utils/analytics.ts`. -/
def enrichCandlesWithContext (candles : List Candle) : List Candle :=
  divergencePass (enrichPass ⟨0, 0, 0, 0, 0⟩ candles)

/-! ### Auction context (`calculateAuctionContext`) -/

inductive AuctionMode
  | BALANCED
  | ROTATIONAL
  | INITIATIVE_BUY
  | INITIATIVE_SELL
  | FAILED_AUCTION_HIGH
  | FAILED_AUCTION_LOW
deriving DecidableEq

inductive Bias
  | neutral
  | bullish
  | bearish
deriving DecidableEq

structure AuctionContext where
  mode : AuctionMode
  confidence : ℚ
  scenario : String
  bias : Bias
deriving DecidableEq

/-- Source: `calculateAuctionContext(lastPrice, profile, vwap, recentCandles)` from
`src/utils/analytics.ts`.  The `none` branch of `getLast?` is unreachable
behind the `length < 5` guard. -/
def calculateAuctionContext (lastPrice : ℚ) (profile : ProfileMetrics) (vwap : ℚ)
    (recentCandles : List Candle) : AuctionContext :=
  if recentCandles.length < 5 then
    { mode := .BALANCED, confidence := 0, scenario := "Gathering data...", bias := .neutral }
  else
    match recentCandles.getLast? with
    | none =>
      { mode := .BALANCED, confidence := 0, scenario := "Gathering data...", bias := .neutral }
    | some last =>
      let slice5 := recentCandles.drop (recentCandles.length - 5)
      let recentHighs := maxQList (slice5.map (fun c => c.high))
      let recentLows := minQList (slice5.map (fun c => c.low))
      let mode : AuctionMode :=
        if recentHighs > profile.vah ∧ lastPrice < profile.vah ∧ last.close < last.open' then
          .FAILED_AUCTION_HIGH
        else if recentLows < profile.val ∧ lastPrice > profile.val ∧ last.close > last.open' then
          .FAILED_AUCTION_LOW
        else if lastPrice > profile.vah then .INITIATIVE_BUY
        else if lastPrice < profile.val then .INITIATIVE_SELL
        else
          let distToVAH := |lastPrice - profile.vah|
          let distToVAL := |lastPrice - profile.val|
          let range := profile.vah - profile.val
          if distToVAH < range * (1 / 10) ∨ distToVAL < range * (1 / 10) then .ROTATIONAL
          else .BALANCED
      let delta := last.delta.getD 0
      let vol := last.volume
      let confidence : ℚ := 50
      let confidence :=
        if mode = .INITIATIVE_BUY ∧ delta > 0 ∧ lastPrice > vwap then confidence + 25
        else confidence
      let confidence :=
        if mode = .INITIATIVE_SELL ∧ delta < 0 ∧ lastPrice < vwap then confidence + 25
        else confidence
      let confidence :=
        if mode = .FAILED_AUCTION_HIGH ∧ delta < 0 then confidence + 30 else confidence
      let confidence :=
        if mode = .FAILED_AUCTION_LOW ∧ delta > 0 then confidence + 30 else confidence
      let confidence :=
        if mode = .BALANCED ∧ |delta| < vol * (1 / 10) then confidence + 20 else confidence
      let confidence := min 100 (max 0 confidence)
      let sb : String × Bias :=
        match mode with
        | .INITIATIVE_BUY =>
          ("Acceptance above VA. Buyers chasing price. Target extension.", .bullish)
        | .INITIATIVE_SELL =>
          ("Weakness below VA. Sellers aggressive. Target lower liquidity.", .bearish)
        | .FAILED_AUCTION_HIGH =>
          ("Trap at highs. Buyers exhausted. Return to POC likely.", .bearish)
        | .FAILED_AUCTION_LOW =>
          ("Trap at lows. Demand found. Return to value expected.", .bullish)
        | .ROTATIONAL =>
          if lastPrice > profile.poc then
            ("Testing VAH supply. Break or rotate to POC.", .bullish)
          else
            ("Testing VAL demand. Break or rotate to POC.", .bearish)
        | .BALANCED =>
          ("Market in balance. Await reaction at extremes.", .neutral)
      { mode := mode, confidence := confidence, scenario := sb.1, bias := sb.2 }

/-! ### DOM level analytics (`analyzeDOM`) -/

inductive Side
  | bid
  | ask
deriving DecidableEq

structure Trade where
  id : Int
  price : ℚ
  qty : ℚ
  time : Int
  isBuyerMaker : Bool
  isLarge : Bool
deriving DecidableEq

structure OrderBookLevel where
  price : ℚ
  qty : ℚ
  total : ℚ
  depthRatio : ℚ
deriving DecidableEq

structure EnrichedLevel extends OrderBookLevel where
  type : Side
  cumulativeQty : ℚ
  deltaQty : ℚ
  tradeVol : ℚ
  absorption : ℚ
  isIceberg : Bool
  icebergVol : ℚ
  isSpoof : Bool
  age : Int
deriving DecidableEq

/-- The per-price aggregation of `recentTrades` for the relevant aggressor
side; reads go through `tradeMap.get(p) || 0`, so the JS map is modelled as a
total function defaulting to 0. -/
def buildTradeMap (recentTrades : List Trade) (side : Side) : ℚ → ℚ :=
  recentTrades.foldl
    (fun m t =>
      if (side = .bid ∧ t.isBuyerMaker) ∨ (side = .ask ∧ ¬ t.isBuyerMaker) then
        fun p => if p = t.price then m t.price + t.qty else m p
      else m)
    (fun _ => 0)

/-- The `newLevels.map` body of `analyzeDOM`, with the `cumulative`
accumulator threaded through the list. -/
def analyzeDOMGo (side : Side) (prevLevels : ℚ → Option EnrichedLevel)
    (tradeMap : ℚ → ℚ) : ℚ → List OrderBookLevel → List EnrichedLevel
  | _, [] => []
  | cumulative0, level :: rest =>
    let prev := prevLevels level.price
    let executedVol := tradeMap level.price
    let cumulative := cumulative0 + level.qty
    let ds : ℚ × Bool :=
      match prev with
      | some p =>
        let rawDiff := level.qty - p.qty
        let valueRemoved := (p.qty - level.qty) * level.price
        (rawDiff + executedVol, decide (valueRemoved > 5000 ∧ executedVol = 0))
      | none => (level.qty, false)
    let delta := ds.1
    let isSpoof := ds.2
    let icebergVol0 : ℚ := match prev with | some p => p.icebergVol | none => 0
    let ib : Bool × ℚ :=
      if executedVol > 0 ∧ delta ≥ 0 then (true, icebergVol0 + executedVol)
      else (false, icebergVol0)
    let absorptionScore := if executedVol > 0 ∧ level.qty > 0 then executedVol / level.qty else 0
    let age : Int := match prev with | some p => p.age + 1 | none => 0
    { toOrderBookLevel := level, type := side, cumulativeQty := cumulative,
      deltaQty := delta, tradeVol := executedVol, absorption := absorptionScore,
      isIceberg := ib.1, icebergVol := ib.2, isSpoof := isSpoof, age := age }
      :: analyzeDOMGo side prevLevels tradeMap cumulative rest

/-- Source: `analyzeDOM(newLevels, prevLevels, recentTrades, side)` from
`src/utils/domAnalytics.ts`. -/
def analyzeDOM (newLevels : List OrderBookLevel) (prevLevels : ℚ → Option EnrichedLevel)
    (recentTrades : List Trade) (side : Side) : List EnrichedLevel :=
  analyzeDOMGo side prevLevels (buildTradeMap recentTrades side) 0 newLevels

/-! ### Persistent event engine (`EventEngine`) -/

inductive EventState
  | NEUTRAL
  | STACK
  | ABSORPTION
  | HOLDING
  | WEAKENING
  | FAIL
  | BROKEN
deriving DecidableEq

inductive PersistentEventType
  | ICE
  | ABSORPTION
  | STACK
  | PULL
  | FAIL
deriving DecidableEq

/-- A persistent event.  The string id `` `${side}-${price}` `` of the source
is determined by the `side` and `price` fields and is therefore not stored
separately. -/
structure PersistentEvent where
  type : PersistentEventType
  price : ℚ
  side : Side
  state : EventState
  firstDetected : Int
  lastConfirmed : Int
  failTime : Option Int := none
  volume : ℚ
  peakVolume : ℚ
  strength : ℚ
  confirmations : Int
  failedPushes : Int
  failConfidence : ℚ := 0
  remDropRatio : Option ℚ := none
  isActive : Bool
  isRetest : Bool
  isFailed : Bool
deriving DecidableEq

/-- The fail-cooldown map; every read is `get(bucket) || 0`, so the JS map is
modelled as a total function defaulting to 0 (deleting an entry is the same
as resetting it to 0). -/
abbrev CooldownMap := Int → Int

/-- Source: `Math.floor(price / 10) * 10` — the 10-price-unit cooldown bucket. -/
def priceBucket (price : ℚ) : Int := Rat.floor (price / 10) * 10

/-- Source: `calculateFailConfidence(event, remDrop, age)` from
`src/utils/eventEngine.ts`. -/
def calculateFailConfidence (event : PersistentEvent) (remDrop : ℚ) (age : Int) : ℚ :=
  let score : ℚ := 50
  let score := if event.state = .HOLDING then score + 20 else score
  let score := if event.type = .ABSORPTION ∨ event.type = .ICE then score + 15 else score
  let score := if age > 300000 then score + 15 else if age < 120000 then score - 10 else score
  let score := if remDrop > 1 / 2 then score + 25 else if remDrop < 1 / 10 then score - 20 else score
  let score := if event.failedPushes > 2 then score + 20
               else if event.failedPushes = 0 then score - 15 else score
  min 100 (max 0 score)

/-- The breach block of `EventEngine.process` (guarded by `isBreached`, not
yet failed, not BROKEN): FAIL with confidence ≥ 70 (setting the 5-minute
bucket cooldown), otherwise BROKEN. -/
def breachPhase (now : Int) (lastPrice : ℚ) (failCooldowns : CooldownMap)
    (age : Int) (event : PersistentEvent) : PersistentEvent × CooldownMap :=
  let tolerance := lastPrice * (3 / 10000)
  let isBreached :=
    (event.side = .bid ∧ lastPrice < event.price - tolerance) ∨
    (event.side = .ask ∧ lastPrice > event.price + tolerance)
  if isBreached ∧ event.isFailed = false ∧ event.state ≠ .BROKEN then
    let isSignificant := event.state = .STACK ∨ event.state = .ABSORPTION ∨
                         event.state = .HOLDING ∨ event.state = .WEAKENING
    let isMature := age > 60000
    let bucket := priceBucket event.price
    let cooldown := failCooldowns bucket
    if isSignificant ∧ isMature ∧ now > cooldown then
      let remDrop := 1 - event.volume / event.peakVolume
      let conf := calculateFailConfidence event remDrop age
      if conf ≥ 70 then
        ({ event with
            state := .FAIL, type := .FAIL, isFailed := true,
            failTime := some now, failConfidence := conf, remDropRatio := some remDrop },
         fun b => if b = bucket then now + 300000 else failCooldowns b)
      else
        ({ event with state := .BROKEN, isFailed := true }, failCooldowns)
    else
      ({ event with state := .BROKEN, isFailed := true }, failCooldowns)
  else (event, failCooldowns)

/-- The HOLDING transition of the state machine: STACK/ABSORPTION promotes to
HOLDING after 2 minutes and more than 10 confirmations. -/
def holdingPhase (age : Int) (e : PersistentEvent) : PersistentEvent :=
  if (e.state = .STACK ∨ e.state = .ABSORPTION) ∧ age > 120000 ∧ e.confirmations > 10 then
    { e with state := .HOLDING }
  else e

/-- The WEAKENING transition: an active HOLDING event whose current volume
dropped below 30% of peak. -/
def weakeningPhase (e : PersistentEvent) : PersistentEvent :=
  if e.isActive = true ∧ e.state = .HOLDING ∧ e.volume < e.peakVolume * (3 / 10) then
    { e with state := .WEAKENING }
  else e

/-- The retest flagging (on not-just-updated, non-failed events older than
60s whose price is within 0.05% of the last price).  `lastConfirmed` is
never written by the state machine, so re-reading it here is the same as the
`justUpdated` captured at the top of the loop body. -/
def retestPhase (now : Int) (lastPrice : ℚ) (age : Int) (e : PersistentEvent) :
    PersistentEvent :=
  if ¬ (now - e.lastConfirmed < 500) ∧ e.isFailed = false ∧ age > 60000 then
    if |lastPrice - e.price| / lastPrice < 5 / 10000 then { e with isRetest := true }
    else e
  else e

/-- The strength decay applied to every non-FAIL event. -/
def decayPhase (windowMs age : Int) (e : PersistentEvent) : PersistentEvent :=
  if e.state ≠ .FAIL then
    { e with strength := max 10 (e.strength * (1 - (age : ℚ) / (windowMs : ℚ))) }
  else e

/-- One iteration of the `for (const [key, event] of this.events.entries())`
state-machine loop of `EventEngine.process`; `none` in the first component
means the map entry is deleted. -/
def stepEvent (windowMs : Int) (now : Int) (lastPrice : ℚ)
    (failCooldowns : CooldownMap) (event : PersistentEvent) :
    Option PersistentEvent × CooldownMap :=
  let age := now - event.firstDetected
  let expiry : Int := if event.state = .FAIL then 120000 else windowMs
  if age > expiry ∧ event.state ≠ .FAIL then (none, failCooldowns)
  else if event.state = .FAIL ∧ now - event.failTime.getD 0 > expiry then
    (none, failCooldowns)
  else
    let event1 := { event with isActive := decide (now - event.lastConfirmed < 500) }
    let event3 := weakeningPhase (holdingPhase age event1)
    let ec := breachPhase now lastPrice failCooldowns age event3
    let event5 := retestPhase now lastPrice age ec.1
    (some (decayPhase windowMs age event5), ec.2)

/-- The state-machine loop over the whole events map, threading the
fail-cooldown map through the per-event steps. -/
def processEvents (windowMs : Int) (now : Int) (lastPrice : ℚ) :
    List PersistentEvent → CooldownMap → List PersistentEvent × CooldownMap
  | [], M => ([], M)
  | e :: rest, M =>
    let r := stepEvent windowMs now lastPrice M e
    let tail := processEvents windowMs now lastPrice rest r.2
    (match r.1 with
     | none => tail.1
     | some e' => e' :: tail.1,
     tail.2)

/-- The probabilistic cooldown cleanup (the `Math.random() > 0.95` branch of
`process`): entries whose expiry has passed are deleted, which under the
`get(bucket) || 0` read convention is the same as resetting them to 0. -/
def gcCooldowns (now : Int) (M : CooldownMap) : CooldownMap :=
  fun b => if now > M b then 0 else M b

/-- One `process` call as far as the fail-cooldown state is concerned: the
events handled during the call are an arbitrary input list (this
over-approximates every reachable events map — detections never touch the
cooldown map), and `gcHappens` records whether the 5%-probability cleanup
fired. -/
structure TickCall where
  now : Int
  lastPrice : ℚ
  events : List PersistentEvent
  gcHappens : Bool

/-- The evolution of the fail-cooldown map across a sequence of `process`
calls. -/
def runCalls (windowMs : Int) : List TickCall → CooldownMap → CooldownMap
  | [], M => M
  | c :: rest, M =>
    let M1 := (processEvents windowMs c.now c.lastPrice c.events M).2
    runCalls windowMs rest (if c.gcHappens then gcCooldowns c.now M1 else M1)

/-- The detection classification of `EventEngine.processLevels`: at most one
`(detectedType, detectionStrength)` per enriched level, in priority order
ICE > ABSORPTION > PULL > STACK. -/
def detectLevel (lvl : EnrichedLevel) : Option (PersistentEventType × ℚ) :=
  if lvl.isIceberg then some (.ICE, 80)
  else if lvl.absorption > 3 / 2 then some (.ABSORPTION, 80)
  else if lvl.isSpoof then some (.PULL, 90)
  else if lvl.qty * lvl.price > 150000 ∧ lvl.age > 5 then some (.STACK, 60)
  else none

/-- The reinforcement of an existing (non-FAIL, non-BROKEN) event in
`processLevels`.  Note the source order: `lastConfirmed` is assigned `now`
BEFORE the failed-push condition reads `now - existing.lastConfirmed`. -/
def updateExistingEvent (existing : PersistentEvent) (detectedType : PersistentEventType)
    (lvl : EnrichedLevel) (now : Int) : PersistentEvent :=
  let e := { existing with
    lastConfirmed := now,
    confirmations := existing.confirmations + 1,
    volume := lvl.qty,
    peakVolume := max existing.peakVolume lvl.qty,
    strength := min 100 (existing.strength + 2) }
  let e :=
    if detectedType = .ICE ∧ existing.type ≠ .ICE then
      { e with type := .ICE, state := .STACK }
    else e
  if now - e.firstDetected > 60000 ∧ now - e.lastConfirmed > 10000 then
    { e with failedPushes := e.failedPushes + 1 }
  else e

/-- Creation of a fresh event in `processLevels`. -/
def createNewEvent (detectedType : PersistentEventType) (detectionStrength : ℚ)
    (lvl : EnrichedLevel) (side : Side) (now : Int) : PersistentEvent :=
  { type := detectedType, price := lvl.price, side := side,
    state := if detectedType = .ABSORPTION ∨ detectedType = .ICE then .ABSORPTION else .STACK,
    firstDetected := now, lastConfirmed := now,
    volume := lvl.qty, peakVolume := lvl.qty, strength := detectionStrength,
    confirmations := 1, failedPushes := 0,
    isActive := true, isRetest := false, isFailed := false, failConfidence := 0 }

/-- The body of `processLevels` restricted to a single level: `existing?` is the events
map entry for the id `side-price` before the call, the result is the entry
after it (`none` = no entry). -/
def processLevel (existing? : Option PersistentEvent) (lvl : EnrichedLevel)
    (side : Side) (now : Int) (lastPrice : ℚ) : Option PersistentEvent :=
  match detectLevel lvl with
  | none => existing?
  | some ds =>
    match existing? with
    | some existing =>
      if existing.state = .FAIL ∨ existing.state = .BROKEN then some existing
      else some (updateExistingEvent existing ds.1 lvl now)
    | none =>
      let isBehind := if side = .bid then lastPrice < lvl.price else lastPrice > lvl.price
      if isBehind then none
      else some (createNewEvent ds.1 ds.2 lvl side now)

/-! ### Smart zone aggregation (`SmartGroupingEngine`) -/

inductive NoiseFilterLevel
  | LOW
  | MEDIUM
  | HIGH
  | AUTO
deriving DecidableEq

structure ZoneRaw where
  price : ℚ
  added : ℚ
  removed : ℚ
  executed : ℚ
  net : ℚ
  lastQty : ℚ
  firstSeen : Int
  lastUpdate : Int
  failedPushes : Option ℚ := none
deriving DecidableEq

/-- A smart zone.  The string id `` `z-${bucketKey}` `` of the source is
determined by `priceStart` and is not stored separately. -/
structure SmartZone where
  priceStart : ℚ
  priceEnd : ℚ
  added : ℚ
  removed : ℚ
  executed : ℚ
  net : ℚ
  density : Int
  avgLifetime : Int
  lastUpdate : Int
  noiseScore : ℚ
  impactScore : ℚ
  isSignificant : Bool
  volatility : ℚ
deriving DecidableEq

/-- Source: `groupSize === 0 ? raw.price : Math.floor(raw.price / groupSize) * groupSize`. -/
def bucketKeyOf (groupSize price : ℚ) : ℚ :=
  if groupSize = 0 then price else (Rat.floor (price / groupSize) : Int) * groupSize

/-- The freshly initialised zone for a bucket key. -/
def blankZone (volatility groupSize bucketKey : ℚ) : SmartZone :=
  { priceStart := bucketKey,
    priceEnd := if groupSize = 0 then bucketKey else bucketKey + groupSize,
    added := 0, removed := 0, executed := 0, net := 0, density := 0,
    avgLifetime := 0, lastUpdate := 0,
    noiseScore := 0, impactScore := 0, isSignificant := false, volatility := volatility }

/-- Accumulation of one raw entry into its zone (the body of the
`rawMap.forEach` after the bucket lookup). -/
def addRawToZone (now : Int) (raw : ZoneRaw) (z : SmartZone) : SmartZone :=
  { z with
      added := z.added + raw.added, removed := z.removed + raw.removed,
      executed := z.executed + raw.executed, net := z.net + raw.net,
      density := z.density + 1,
      lastUpdate := max z.lastUpdate raw.lastUpdate,
      avgLifetime := max z.avgLifetime (now - raw.firstSeen) }

/-- JS-`Map` upsert of one raw entry into the insertion-ordered zones map. -/
def upsertZone (now : Int) (volatility groupSize : ℚ) (raw : ZoneRaw) :
    List (ℚ × SmartZone) → List (ℚ × SmartZone)
  | [] =>
    let k := bucketKeyOf groupSize raw.price
    [(k, addRawToZone now raw (blankZone volatility groupSize k))]
  | (k', z) :: rest =>
    let k := bucketKeyOf groupSize raw.price
    if k' = k then (k', addRawToZone now raw z) :: rest
    else (k', z) :: upsertZone now volatility groupSize raw rest

/-- Phase 1 of `aggregateZones`: time-window filter and bucketing of the raw
map (in its iteration order). -/
def bucketZones (now : Int) (volatility groupSize : ℚ) (timeWindow : Int)
    (rawMap : List ZoneRaw) : List (ℚ × SmartZone) :=
  rawMap.foldl
    (fun zones raw =>
      if raw.lastUpdate < now - timeWindow then zones
      else upsertZone now volatility groupSize raw zones)
    []

/-- Relation `a ≤ b` on ℚ for `volumes.sort((a, b) => a - b)`. -/
def qLE (a b : ℚ) : Prop := a ≤ b

instance : DecidableRel qLE := fun a b => inferInstanceAs (Decidable (a ≤ b))

instance : IsTotal ℚ qLE := ⟨fun a b => le_total a b⟩

instance : IsTrans ℚ qLE := ⟨fun _ _ _ h1 h2 => le_trans h1 h2⟩

/-- Source: `calculateDynamicVolumeThreshold(zones)`: the 80th-percentile
total volume, with `volumes[p80] || 1000` falling back to 1000 for a missing
or zero entry. -/
def calculateDynamicVolumeThreshold (zones : List SmartZone) : ℚ :=
  if zones.isEmpty then 1000
  else
    let volumes := List.insertionSort qLE
      (zones.map (fun z => z.added + z.removed + z.executed))
    let p80 := volumes.length * 4 / 5
    match volumes[p80]? with
    | some v => if v = 0 then 1000 else v
    | none => 1000

/-- The per-zone noise-score computation of `aggregateZones` (steps A–D);
returns the zone with `noiseScore` and `impactScore` written.  The source
also computes a `deltaRatio` that it never reads; it is reproduced here
unused. -/
def scoreZone (groupSize lastPrice activeVolThreshold : ℚ) (zone : SmartZone) : SmartZone :=
  let noise : ℚ := 50
  let totalVol := zone.added + zone.removed + zone.executed
  let noise := if totalVol > activeVolThreshold * 2 then noise - 30
               else if totalVol < activeVolThreshold * (1 / 5) then noise + 30
               else noise
  let noise := if zone.avgLifetime < 5000 then noise + 40 else noise
  let noise := if zone.avgLifetime > 60000 then noise - 20 else noise
  let distToPrice := |lastPrice - zone.priceStart|
  let inZone := distToPrice < groupSize
  let _deltaRat := |zone.net| / (if totalVol = 0 then 1 else totalVol)
  let ni : ℚ × ℚ :=
    if totalVol > activeVolThreshold ∧ inZone then (noise - 30, 100)
    else if totalVol > activeVolThreshold ∧ ¬ inZone ∧ zone.executed > 0 then
      (noise - 20, zone.impactScore)
    else if totalVol < activeVolThreshold ∧ ¬ inZone then (noise + 10, zone.impactScore)
    else (noise, zone.impactScore)
  { zone with noiseScore := max 0 (min 100 ni.1), impactScore := ni.2 }

/-- The filter threshold selected from the noise level (step E). -/
def noiseThreshold (volatility : ℚ) : NoiseFilterLevel → ℚ
  | .LOW => 80
  | .MEDIUM => 60
  | .HIGH => 40
  | .AUTO => if volatility > 20 then 30 else 60

/-- Descending `priceStart` (the comparator `(a, b) => b.priceStart - a.priceStart`). -/
def zoneGE (a b : SmartZone) : Prop := b.priceStart ≤ a.priceStart

instance : DecidableRel zoneGE := fun a b =>
  inferInstanceAs (Decidable (b.priceStart ≤ a.priceStart))

/-- Source: `SmartGroupingEngine.aggregateZones(rawMap, groupSize, timeWindow,
noiseLevel, lastPrice)`; `volatility` is the engine's volatility state and
`now` is `Date.now()` at the call. -/
def aggregateZones (volatility : ℚ) (now : Int) (rawMap : List ZoneRaw)
    (groupSize : ℚ) (timeWindow : Int) (noiseLevel : NoiseFilterLevel)
    (lastPrice : ℚ) : List SmartZone :=
  let zones := (bucketZones now volatility groupSize timeWindow rawMap).map (fun kz => kz.2)
  let activeVolThreshold := calculateDynamicVolumeThreshold zones
  let scored := zones.map (scoreZone groupSize lastPrice activeVolThreshold)
  let threshold := noiseThreshold volatility noiseLevel
  let processed := (scored.filter (fun z => decide (z.noiseScore < threshold))).map
    (fun z => { z with isSignificant := true })
  List.insertionSort zoneGE processed

/-! ### Concrete inputs used by counterexamples, failing inputs and witnesses -/

/-- A bare candle with the given low, high and volume. -/
def mkCandle (lo hi vol : ℚ) : Candle :=
  { timestamp := 0, open' := 0, high := hi, low := lo, close := 0,
    volume := vol, takerBuyVolume := 0 }

/-- Candles whose profile has its lowest tick at price 0: the falsy-price
fallback `levels[lowerIndex]?.price || poc` then snaps `val` up to `poc`. -/
def cexC1Candles : List Candle :=
  [mkCandle (1 / 2) (1 / 2) 3, mkCandle (3 / 2) (3 / 2) 4, mkCandle (5 / 2) (5 / 2) 3]

/-- The metrics actually returned on `cexC1Candles` with tick size 1. -/
def cexC1Metrics : ProfileMetrics :=
  { levels := [⟨0, 3⟩, ⟨1, 4⟩, ⟨2, 3⟩], poc := 1, vah := 1, val := 1,
    totalVolume := 10, sessionHigh := 5 / 2, sessionLow := 1 / 2 }

/-- Candles containing a zero-volume candle: the zero-volume level above the
POC makes the expansion step read `levels[-1]`, so the source throws. -/
def cexC2Candles : List Candle :=
  [mkCandle (1 / 2) (1 / 2) 5, mkCandle (3 / 2) (3 / 2) 0, mkCandle (5 / 2) (5 / 2) 5]

/-- Level list with equal-volume neighbours around the POC at index 1. -/
def cexC3Levels : List ProfileLevel := [⟨0, 3⟩, ⟨1, 4⟩, ⟨2, 3⟩]

/-- A well-behaved profile input (positive volumes, prices above tick size). -/
def c1WitnessCandles : List Candle := [mkCandle 100 102 10]

/-- A second well-behaved profile input. -/
def c2WitnessCandles : List Candle := [mkCandle 50 51 4]

/-- First candle of the C4 failing input: 1970-01-02 UTC (day of month 2). -/
def c4Candle1 : Candle :=
  { timestamp := 86400000, open' := 0, high := 0, low := 0, close := 0,
    volume := 10, takerBuyVolume := 10 }

/-- Second candle of the C4 failing input: 1970-02-02 UTC — a different UTC
calendar date one month later, but the same day of month 2. -/
def c4Candle2 : Candle :=
  { timestamp := 2764800000, open' := 0, high := 0, low := 0, close := 0,
    volume := 4, takerBuyVolume := 4 }

/-- A young (50s old) bid STACK event at price 100. -/
def c5Event : PersistentEvent :=
  { type := .STACK, price := 100, side := .bid, state := .STACK,
    firstDetected := 50000, lastConfirmed := 50000, volume := 500, peakVolume := 500,
    strength := 60, confirmations := 1, failedPushes := 0,
    isActive := true, isRetest := false, isFailed := false }

/-- A mature HOLDING absorption event at price 100 that produces a
high-confidence FAIL when breached. -/
def c6FailEvent : PersistentEvent :=
  { type := .ABSORPTION, price := 100, side := .bid, state := .HOLDING,
    firstDetected := 0, lastConfirmed := 0, volume := 10, peakVolume := 100,
    strength := 80, confirmations := 20, failedPushes := 3,
    isActive := false, isRetest := false, isFailed := false }

/-- A mature event at price 105 — same 10-unit cooldown bucket as price 100. -/
def c6SecondEvent : PersistentEvent :=
  { type := .ABSORPTION, price := 105, side := .bid, state := .HOLDING,
    firstDetected := 0, lastConfirmed := 0, volume := 10, peakVolume := 100,
    strength := 80, confirmations := 20, failedPushes := 3,
    isActive := false, isRetest := false, isFailed := false }

/-- An enriched level classified as a large STACK
(`qty * price = 200000 > 150000`, `age = 10 > 5`). -/
def c7Level : EnrichedLevel :=
  { price := 100, qty := 2000, total := 0, depthRatio := 0, type := .bid,
    cumulativeQty := 0, deltaQty := 0, tradeVol := 0, absorption := 0,
    isIceberg := false, icebergVol := 0, isSpoof := false, age := 10 }

/-- An existing STACK event created at time 0 and last confirmed at time 0;
re-detected at `now = 70000` it has existed for 70s and has not been
reconfirmed for 70s, so the spec says `failedPushes` must become 1. -/
def c7Existing : PersistentEvent :=
  { type := .STACK, price := 100, side := .bid, state := .STACK,
    firstDetected := 0, lastConfirmed := 0, volume := 2000, peakVolume := 2000,
    strength := 60, confirmations := 1, failedPushes := 0,
    isActive := true, isRetest := false, isFailed := false }

/-- A plain order-book level at a price absent from the previous snapshot. -/
def c10Level : OrderBookLevel := { price := 100, qty := 5, total := 0, depthRatio := 0 }

/-- Candles whose profile has levels at prices 1, 2, 3 with volumes 3, 4, 3:
the two neighbours of the POC have equal volume. -/
def cexC3Candles : List Candle :=
  [mkCandle (3 / 2) (3 / 2) 3, mkCandle (5 / 2) (5 / 2) 4, mkCandle (7 / 2) (7 / 2) 3]

/-- Proof-side abbreviation: the total volume of the contiguous level block
`levels[l..u]` (inclusive, integer indices). -/
def sliceVol (levels : List ProfileLevel) (l u : Int) : ℚ :=
  (((levels.drop l.toNat).take (u - l + 1).toNat).map (fun lv => lv.volume)).sum

/-! ## Theorems -/

/-- C9: with fewer than 5 recent candles, `calculateAuctionContext` returns
exactly the neutral default: mode BALANCED, confidence 0, scenario
"Gathering data...", neutral bias — regardless of the other arguments. -/
theorem C9_gathering_default (lastPrice : ℚ) (profile : ProfileMetrics) (vwap : ℚ)
    (recentCandles : List Candle) (h : recentCandles.length < 5) :
    calculateAuctionContext lastPrice profile vwap recentCandles =
      { mode := .BALANCED, confidence := 0, scenario := "Gathering data...",
        bias := .neutral } := by
  unfold calculateAuctionContext
  rw [if_pos h]

/-- C9 witness: the empty candle list (0 < 5 candles) yields the neutral
default. -/
theorem C9_gathering_default_witness :
    calculateAuctionContext 0
      { levels := [], poc := 0, vah := 0, val := 0, totalVolume := 0,
        sessionHigh := 0, sessionLow := 0 } 0 [] =
      { mode := .BALANCED, confidence := 0, scenario := "Gathering data...",
        bias := .neutral } :=
  C9_gathering_default 0 _ 0 [] (by decide)

/-- C4 (code bug): the candles of 1970-01-02 and 1970-02-02 lie on different
UTC calendar dates, but share day-of-month 2, so `getUTCDate` (the only thing
the reset compares) agrees on them and the accumulators are NOT reset: the
second candle's cvd is 14 = 10 + 4, not its own delta 4 as the spec
requires. -/
theorem C4_reset_misses_month_boundary :
    (enrichCandlesWithContext [c4Candle1, c4Candle2]).map (fun c => c.cvd) =
      [some 10, some 14] ∧
    getUTCDate c4Candle1.timestamp = 2 ∧ getUTCDate c4Candle2.timestamp = 2 := by
  refine ⟨?_, ?_, ?_⟩ <;> with_unfolding_all rfl

/-- C7 (code bug): re-detecting `c7Existing` at `now = 70000` — the event has
existed 70s > 60s and has not been reconfirmed for 70s > 10s — leaves
`failedPushes` at 0.  The source assigns `lastConfirmed = now` before testing
`now - lastConfirmed > 10000`, so the increment is unreachable. -/
theorem C7_failed_push_never_incremented :
    (processLevel (some c7Existing) c7Level .bid 70000 100).map
      (fun e => e.failedPushes) = some 0 ∧
    70000 - c7Existing.firstDetected > 60000 ∧
    70000 - c7Existing.lastConfirmed > 10000 := by
  refine ⟨?_, ?_, ?_⟩ <;> with_unfolding_all decide

/-- C3 counterexample: on `cexC3Candles` (levels at prices 1, 2, 3 with
volumes 3, 4, 3) the POC is price 2 and both neighbour levels carry the equal
volume 3, yet the profile is `val = 1, vah = 2`: the tied first expansion
step moved the LOWER side, where the claimed upper-side tie-break would have
produced `val = 2, vah = 3`. -/
theorem C3_counterexample :
    (getLv? (profileLevels cexC3Candles 1) 0).map (fun l => l.volume) =
      (getLv? (profileLevels cexC3Candles 1) 2).map (fun l => l.volume) ∧
    (calculateProfile cexC3Candles 1).map (fun pm => (pm.poc, pm.val, pm.vah)) =
      some (2, 1, 2) := by
  constructor
  · with_unfolding_all rfl
  · with_unfolding_all rfl

/-- C3 (amended): in the value-area expansion step, when the loop continues
and both neighbour levels exist, the UPPER side is taken only when the upper
neighbour volume is strictly greater than the lower one; when the lower
volume is greater or EQUAL, the step moves the lower bound. -/
theorem C3_tie_goes_lower (levels : List ProfileLevel) (targetVolume : ℚ)
    (fuel : Nat) (upperIndex lowerIndex : Int) (currentVolume : ℚ)
    (up lo : ProfileLevel)
    (hcont : currentVolume < targetVolume)
    (hu : upperIndex < (levels.length : Int) - 1) (hl : 0 < lowerIndex)
    (hup : getLv? levels (upperIndex + 1) = some up)
    (hlo : getLv? levels (lowerIndex - 1) = some lo)
    (hle : up.volume ≤ lo.volume) :
    vaLoop levels targetVolume (fuel + 1) upperIndex lowerIndex currentVolume =
      (if upperIndex = (levels.length : Int) - 1 ∧ lowerIndex - 1 = 0 then
        some (upperIndex, lowerIndex - 1)
      else
        vaLoop levels targetVolume fuel upperIndex (lowerIndex - 1)
          (currentVolume + lo.volume)) := by
  rw [vaLoop]
  rw [if_pos ⟨hcont, Or.inl hu⟩, if_pos hu, if_pos hl, hup, hlo]
  simp only [Option.map_some']
  rw [if_neg (not_lt.mpr hle)]

/-- C3 witness: the amended step theorem applied at the concrete tied state
of `cexC3Levels` (upper = lower = POC index 1, current volume 4, target 7). -/
theorem C3_tie_goes_lower_witness :
    vaLoop cexC3Levels 7 2 1 1 4 =
      (if (1 : Int) = (cexC3Levels.length : Int) - 1 ∧ (1 : Int) - 1 = 0 then
        some (1, (1 : Int) - 1)
      else vaLoop cexC3Levels 7 1 1 ((1 : Int) - 1) (4 + 3)) := by
  have h := C3_tie_goes_lower cexC3Levels 7 1 1 1 4 ⟨2, 3⟩ ⟨0, 3⟩
    (by decide) (by decide) (by decide)
    (by with_unfolding_all rfl) (by with_unfolding_all rfl) (by decide)
  exact h

/-- Helper for C10: along `analyzeDOMGo`, an output level whose price has no
entry in the previous enriched map has `isSpoof = false`. -/
theorem analyzeDOMGo_new_price_not_spoof (side : Side)
    (prevLevels : ℚ → Option EnrichedLevel) (tradeMap : ℚ → ℚ) :
    ∀ (levels : List OrderBookLevel) (cum : ℚ) (e : EnrichedLevel),
      e ∈ analyzeDOMGo side prevLevels tradeMap cum levels →
      prevLevels e.price = none → e.isSpoof = false := by
  intro levels
  induction levels with
  | nil => intro cum e he; simp [analyzeDOMGo] at he
  | cons level rest ih =>
    intro cum e he hnone
    rw [analyzeDOMGo] at he
    rcases List.mem_cons.mp he with h | h
    · subst h
      simp only at hnone
      simp only [hnone]
    · exact ih _ e h hnone

/-- C10: spoof detection can only fire on a price that was present in the
previous snapshot — an output level of `analyzeDOM` whose price has no entry
in the previous enriched map always has `isSpoof = false`, for every trade
list and side. -/
theorem C10_new_price_not_spoof (newLevels : List OrderBookLevel)
    (prevLevels : ℚ → Option EnrichedLevel) (recentTrades : List Trade) (side : Side)
    (e : EnrichedLevel) (he : e ∈ analyzeDOM newLevels prevLevels recentTrades side)
    (hnew : prevLevels e.price = none) : e.isSpoof = false :=
  analyzeDOMGo_new_price_not_spoof side prevLevels
    (buildTradeMap recentTrades side) newLevels 0 e he hnew

/-- The enriched level produced for `c10Level` when nothing was known before. -/
def c10Out : EnrichedLevel :=
  { toOrderBookLevel := c10Level, type := .bid, cumulativeQty := 5, deltaQty := 5,
    tradeVol := 0, absorption := 0, isIceberg := false, icebergVol := 0,
    isSpoof := false, age := 0 }

/-- C10 witness: the theorem applied to a one-level snapshot with an empty
previous map. -/
theorem C10_new_price_not_spoof_witness :
    c10Out ∈ analyzeDOM [c10Level] (fun _ => none) [] Side.bid ∧
      c10Out.isSpoof = false := by
  have hmem : c10Out ∈ analyzeDOM [c10Level] (fun _ => none) [] Side.bid := by
    have h : analyzeDOM [c10Level] (fun _ => none) [] Side.bid = [c10Out] := by
      with_unfolding_all rfl
    rw [h]
    exact List.mem_singleton.mpr rfl
  exact ⟨hmem, C10_new_price_not_spoof [c10Level] (fun _ => none) [] Side.bid
    c10Out hmem rfl⟩

/-- Helper: a pointwise-stronger Boolean filter never keeps more elements. -/
theorem length_filter_mono {α : Type} (p q : α → Bool) (l : List α)
    (h : ∀ x ∈ l, p x = true → q x = true) :
    (l.filter p).length ≤ (l.filter q).length := by
  induction l with
  | nil => simp
  | cons x xs ih =>
    have hx := h x (List.mem_cons_self x xs)
    have ih' := ih (fun y hy => h y (List.mem_cons_of_mem _ hy))
    by_cases hp : p x = true
    · rw [List.filter_cons_of_pos hp, List.filter_cons_of_pos (hx hp)]
      simpa using Nat.succ_le_succ ih'
    · rw [List.filter_cons_of_neg (by simpa using hp)]
      by_cases hq : q x = true
      · rw [List.filter_cons_of_pos hq]
        exact Nat.le_succ_of_le ih'
      · rw [List.filter_cons_of_neg (by simpa using hq)]
        exact ih'

/-- Helper: a lower noise threshold never returns more zones. -/
theorem aggregateZones_length_mono (volatility : ℚ) (now : Int)
    (rawMap : List ZoneRaw) (groupSize : ℚ) (timeWindow : Int) (lastPrice : ℚ)
    (n1 n2 : NoiseFilterLevel)
    (h : noiseThreshold volatility n1 ≤ noiseThreshold volatility n2) :
    (aggregateZones volatility now rawMap groupSize timeWindow n1 lastPrice).length ≤
      (aggregateZones volatility now rawMap groupSize timeWindow n2 lastPrice).length := by
  unfold aggregateZones
  rw [(List.perm_insertionSort zoneGE _).length_eq,
      (List.perm_insertionSort zoneGE _).length_eq,
      List.length_map, List.length_map]
  apply length_filter_mono
  intro z _ hz
  simp only [decide_eq_true_eq] at hz ⊢
  exact lt_of_lt_of_le hz h

/-- C8: for identical inputs (raw map, group size, time window, last price and
engine volatility state) a stricter noise level never yields more zones:
|HIGH| ≤ |MEDIUM| ≤ |LOW|. -/
theorem C8_noise_level_monotone (volatility : ℚ) (now : Int) (rawMap : List ZoneRaw)
    (groupSize : ℚ) (timeWindow : Int) (lastPrice : ℚ) :
    (aggregateZones volatility now rawMap groupSize timeWindow .HIGH lastPrice).length ≤
      (aggregateZones volatility now rawMap groupSize timeWindow .MEDIUM lastPrice).length ∧
    (aggregateZones volatility now rawMap groupSize timeWindow .MEDIUM lastPrice).length ≤
      (aggregateZones volatility now rawMap groupSize timeWindow .LOW lastPrice).length :=
  ⟨aggregateZones_length_mono volatility now rawMap groupSize timeWindow lastPrice
      .HIGH .MEDIUM (by norm_num [noiseThreshold]),
   aggregateZones_length_mono volatility now rawMap groupSize timeWindow lastPrice
      .MEDIUM .LOW (by norm_num [noiseThreshold])⟩

/-- Helper: a breached live event that is not yet mature (age at most 60s) is
demoted to BROKEN by the breach block, and the cooldown map is untouched. -/
theorem breachPhase_immature_broken (now : Int) (lastPrice : ℚ) (M : CooldownMap)
    (age : Int) (e : PersistentEvent)
    (hbreach : (e.side = .bid ∧ lastPrice < e.price - lastPrice * (3 / 10000)) ∨
               (e.side = .ask ∧ lastPrice > e.price + lastPrice * (3 / 10000)))
    (hnotfailed : e.isFailed = false) (hnb : e.state ≠ .BROKEN)
    (hage : age ≤ 60000) :
    breachPhase now lastPrice M age e =
      ({ e with state := .BROKEN, isFailed := true }, M) := by
  simp only [breachPhase]
  rw [if_pos ⟨hbreach, hnotfailed, hnb⟩]
  rw [if_neg (fun hc => absurd hc.2.1 (by omega))]

/-- Helper: below 2 minutes of age the HOLDING promotion does not fire. -/
theorem holdingPhase_of_young (age : Int) (e : PersistentEvent) (h : age ≤ 120000) :
    holdingPhase age e = e := by
  unfold holdingPhase
  rw [if_neg (fun hc => absurd hc.2.1 (by omega))]

/-- Helper: the WEAKENING phase never touches side, price, isFailed, volume,
peak volume, failedPushes, type, confirmations or lastConfirmed. -/
theorem weakeningPhase_fields (e : PersistentEvent) :
    (weakeningPhase e).side = e.side ∧ (weakeningPhase e).price = e.price ∧
    (weakeningPhase e).isFailed = e.isFailed ∧
    (weakeningPhase e).lastConfirmed = e.lastConfirmed := by
  unfold weakeningPhase
  split <;> exact ⟨rfl, rfl, rfl, rfl⟩

/-- Helper: the WEAKENING phase maps a non-BROKEN state to a non-BROKEN
state. -/
theorem weakeningPhase_state_ne_broken (e : PersistentEvent)
    (h : e.state ≠ .BROKEN) : (weakeningPhase e).state ≠ .BROKEN := by
  unfold weakeningPhase
  split
  · intro hc
    exact EventState.noConfusion hc
  · exact h

/-- Helper: below 60s of age the retest flagging does not fire. -/
theorem retestPhase_of_young (now : Int) (lastPrice : ℚ) (age : Int)
    (e : PersistentEvent) (h : age ≤ 60000) :
    retestPhase now lastPrice age e = e := by
  unfold retestPhase
  rw [if_neg (fun hc => absurd hc.2.2 (by omega))]

/-- Helper: the decay phase never changes the state. -/
theorem decayPhase_state (windowMs age : Int) (e : PersistentEvent) :
    (decayPhase windowMs age e).state = e.state := by
  unfold decayPhase
  split <;> rfl

/-- C5: an event at most 60s old whose price is breached beyond the 0.03%
tolerance never transitions to FAIL in that tick — provided it is live (not
yet failed, not BROKEN, not FAIL) and the persistence window is at least 60s
(the engine's smallest window is 15 minutes), the breach demotes it to
BROKEN instead. -/
theorem C5_young_breach_becomes_broken (windowMs now : Int) (lastPrice : ℚ)
    (M : CooldownMap) (event : PersistentEvent)
    (hage : now - event.firstDetected ≤ 60000)
    (hwin : 60000 ≤ windowMs)
    (hbreach : (event.side = .bid ∧ lastPrice < event.price - lastPrice * (3 / 10000)) ∨
               (event.side = .ask ∧ lastPrice > event.price + lastPrice * (3 / 10000)))
    (hnotfailed : event.isFailed = false)
    (hnb : event.state ≠ .BROKEN) (hnf : event.state ≠ .FAIL) :
    ((stepEvent windowMs now lastPrice M event).1.map (fun e => e.state)) =
      some EventState.BROKEN := by
  simp only [stepEvent]
  rw [if_neg hnf]
  rw [if_neg (fun hc => absurd hc.1 (by omega)),
      if_neg (fun hc => hnf hc.1)]
  rw [holdingPhase_of_young _ _ (by omega)]
  have hw := weakeningPhase_fields { event with
    isActive := decide (now - event.lastConfirmed < 500) }
  set e3 := weakeningPhase { event with
    isActive := decide (now - event.lastConfirmed < 500) } with he3
  have hbr : breachPhase now lastPrice M (now - event.firstDetected) e3 =
      ({ e3 with state := .BROKEN, isFailed := true }, M) := by
    apply breachPhase_immature_broken
    · rw [hw.1, hw.2.1]
      exact hbreach
    · rw [hw.2.2.1]
      exact hnotfailed
    · exact weakeningPhase_state_ne_broken _ hnb
    · exact hage
  rw [hbr]
  rw [retestPhase_of_young _ _ _ _ hage]
  simp only [Option.map_some', Option.some.injEq]
  rw [decayPhase_state]

/-- C5 witness: the 50s-old breached bid STACK event `c5Event` is demoted to
BROKEN at time 100000 with last price 99 (window 30 minutes, no cooldowns). -/
theorem C5_young_breach_becomes_broken_witness :
    ((stepEvent 1800000 100000 99 (fun _ => 0) c5Event).1.map (fun e => e.state)) =
      some EventState.BROKEN :=
  C5_young_breach_becomes_broken 1800000 100000 99 (fun _ => 0) c5Event
    (by with_unfolding_all decide) (by with_unfolding_all decide)
    (by with_unfolding_all decide) (by with_unfolding_all decide)
    (by with_unfolding_all decide) (by with_unfolding_all decide)

/-- Helper: the HOLDING phase never touches side, price, isFailed or
lastConfirmed. -/
theorem holdingPhase_fields (age : Int) (e : PersistentEvent) :
    (holdingPhase age e).side = e.side ∧ (holdingPhase age e).price = e.price ∧
    (holdingPhase age e).isFailed = e.isFailed ∧
    (holdingPhase age e).lastConfirmed = e.lastConfirmed := by
  unfold holdingPhase
  split <;> exact ⟨rfl, rfl, rfl, rfl⟩

/-- Helper: the HOLDING phase maps a non-FAIL state to a non-FAIL state. -/
theorem holdingPhase_state_ne_fail (age : Int) (e : PersistentEvent)
    (h : e.state ≠ .FAIL) : (holdingPhase age e).state ≠ .FAIL := by
  unfold holdingPhase
  split
  · intro hc
    exact EventState.noConfusion hc
  · exact h

/-- Helper: the WEAKENING phase maps a non-FAIL state to a non-FAIL state. -/
theorem weakeningPhase_state_ne_fail (e : PersistentEvent)
    (h : e.state ≠ .FAIL) : (weakeningPhase e).state ≠ .FAIL := by
  unfold weakeningPhase
  split
  · intro hc
    exact EventState.noConfusion hc
  · exact h

/-- Helper: the retest phase never changes the state. -/
theorem retestPhase_state (now : Int) (lastPrice : ℚ) (age : Int)
    (e : PersistentEvent) : (retestPhase now lastPrice age e).state = e.state := by
  unfold retestPhase
  split
  · split <;> rfl
  · rfl

/-- Helper: the breach block leaves a FAIL state only through its
high-confidence branch, and that branch stamps the 10-unit bucket of the
event price with the cooldown `now + 300000`. -/
theorem breachPhase_fail_sets_cooldown (now : Int) (lastPrice : ℚ) (M : CooldownMap)
    (age : Int) (e : PersistentEvent) (hne : e.state ≠ .FAIL)
    (hfail : (breachPhase now lastPrice M age e).1.state = .FAIL) :
    (breachPhase now lastPrice M age e).2 (priceBucket e.price) = now + 300000 := by
  simp only [breachPhase] at hfail ⊢
  split_ifs at hfail ⊢ with h1 h2 h3
  · simp
  · exact absurd hfail hne

/-- Helper: while the bucket of an event is in cooldown (`now ≤ cooldown`),
the breach block cannot produce FAIL for it. -/
theorem breachPhase_gated (now : Int) (lastPrice : ℚ) (M : CooldownMap)
    (age : Int) (e : PersistentEvent) (hne : e.state ≠ .FAIL)
    (hcd : now ≤ M (priceBucket e.price)) :
    (breachPhase now lastPrice M age e).1.state ≠ .FAIL := by
  simp only [breachPhase]
  split_ifs with h1 h2 h3
  · exact absurd h2.2.2 (by omega)
  · intro hc
    exact EventState.noConfusion hc
  · intro hc
    exact EventState.noConfusion hc
  · exact hne

/-- Helper: the breach block never lowers an unexpired cooldown entry. -/
theorem breachPhase_preserves_cooldown (now : Int) (lastPrice : ℚ) (M : CooldownMap)
    (age : Int) (e : PersistentEvent) (b : Int) (hcd : now ≤ M b) :
    (breachPhase now lastPrice M age e).2 b = M b := by
  simp only [breachPhase]
  split_ifs with h1 h2 h3
  · by_cases hb : b = priceBucket e.price
    · subst hb
      exact absurd h2.2.2 (by omega)
    · simp [hb]
  · rfl
  · rfl
  · rfl

/-- Helper: if a step turns a non-FAIL event into FAIL, the cooldown map it
returns stamps the 10-unit bucket of the event price with `now + 300000`. -/
theorem stepEvent_fail_sets_cooldown (windowMs now : Int) (lastPrice : ℚ)
    (M : CooldownMap) (e : PersistentEvent) (hne : e.state ≠ .FAIL)
    (hfail : ((stepEvent windowMs now lastPrice M e).1.map (fun x => x.state)) =
      some .FAIL) :
    (stepEvent windowMs now lastPrice M e).2 (priceBucket e.price) = now + 300000 := by
  simp only [stepEvent] at hfail ⊢
  rw [if_neg hne] at hfail ⊢
  split_ifs at hfail ⊢ with h1 h2
  · simp at hfail
  · simp at hfail
  · simp only [Option.map_some', Option.some.injEq] at hfail
    rw [decayPhase_state, retestPhase_state] at hfail
    set e1 : PersistentEvent :=
      { e with isActive := decide (now - e.lastConfirmed < 500) } with he1
    have hfields := holdingPhase_fields (now - e.firstDetected) e1
    have hfields2 := weakeningPhase_fields (holdingPhase (now - e.firstDetected) e1)
    have hne3 : (weakeningPhase (holdingPhase (now - e.firstDetected) e1)).state ≠
        .FAIL :=
      weakeningPhase_state_ne_fail _ (holdingPhase_state_ne_fail _ _ hne)
    have := breachPhase_fail_sets_cooldown now lastPrice M (now - e.firstDetected)
      (weakeningPhase (holdingPhase (now - e.firstDetected) e1)) hne3 hfail
    rw [hfields2.2.1, hfields.2.1] at this
    exact this

/-- Helper: while the bucket of an event is in cooldown, a step cannot turn
it into FAIL. -/
theorem stepEvent_no_fail_during_cooldown (windowMs now : Int) (lastPrice : ℚ)
    (M : CooldownMap) (e : PersistentEvent) (hne : e.state ≠ .FAIL)
    (hcd : now ≤ M (priceBucket e.price)) :
    ((stepEvent windowMs now lastPrice M e).1.map (fun x => x.state)) ≠
      some .FAIL := by
  simp only [stepEvent]
  rw [if_neg hne]
  split_ifs with h1 h2
  · simp
  · simp
  · simp only [Option.map_some', Option.some.injEq, ne_eq]
    rw [decayPhase_state, retestPhase_state]
    set e1 : PersistentEvent :=
      { e with isActive := decide (now - e.lastConfirmed < 500) } with he1
    have hfields := holdingPhase_fields (now - e.firstDetected) e1
    have hfields2 := weakeningPhase_fields (holdingPhase (now - e.firstDetected) e1)
    have hne3 : (weakeningPhase (holdingPhase (now - e.firstDetected) e1)).state ≠
        .FAIL :=
      weakeningPhase_state_ne_fail _ (holdingPhase_state_ne_fail _ _ hne)
    apply breachPhase_gated now lastPrice M (now - e.firstDetected) _ hne3
    rw [hfields2.2.1, hfields.2.1]
    exact hcd

/-- Helper: a step never lowers an unexpired cooldown entry. -/
theorem stepEvent_preserves_cooldown (windowMs now : Int) (lastPrice : ℚ)
    (M : CooldownMap) (e : PersistentEvent) (b : Int) (hcd : now ≤ M b) :
    (stepEvent windowMs now lastPrice M e).2 b = M b := by
  simp only [stepEvent]
  split_ifs <;>
    first
      | rfl
      | exact breachPhase_preserves_cooldown now lastPrice M _ _ b hcd

/-- Helper: a whole state-machine pass never lowers an unexpired cooldown
entry. -/
theorem processEvents_preserves_cooldown (windowMs now : Int) (lastPrice : ℚ) :
    ∀ (events : List PersistentEvent) (M : CooldownMap) (b : Int), now ≤ M b →
      (processEvents windowMs now lastPrice events M).2 b = M b := by
  intro events
  induction events with
  | nil => intro M b _; rfl
  | cons e rest ih =>
    intro M b h
    have hstep := stepEvent_preserves_cooldown windowMs now lastPrice M e b h
    have h2 : now ≤ (stepEvent windowMs now lastPrice M e).2 b := by
      rw [hstep]; exact h
    simp only [processEvents]
    rw [ih _ b h2, hstep]

/-- Helper: the cooldown GC never clears an unexpired entry. -/
theorem gcCooldowns_preserves (now : Int) (M : CooldownMap) (b : Int)
    (h : now ≤ M b) : gcCooldowns now M b = M b := by
  unfold gcCooldowns
  rw [if_neg (by omega)]

/-- Helper: across any sequence of process calls whose times do not exceed
the stored cooldown value, that cooldown entry is preserved. -/
theorem runCalls_preserves_cooldown (windowMs : Int) :
    ∀ (calls : List TickCall) (M : CooldownMap) (b T : Int),
      M b = T → (∀ c ∈ calls, c.now ≤ T) →
      runCalls windowMs calls M b = T := by
  intro calls
  induction calls with
  | nil =>
    intro M b T h _
    simpa [runCalls] using h
  | cons c rest ih =>
    intro M b T h hle
    have hc := hle c (List.mem_cons_self _ _)
    have h1 : (processEvents windowMs c.now c.lastPrice c.events M).2 b = T := by
      rw [processEvents_preserves_cooldown _ _ _ _ _ _ (by omega), h]
    simp only [runCalls]
    by_cases hgc : c.gcHappens
    · rw [if_pos hgc]
      apply ih _ b T _ (fun d hd => hle d (List.mem_cons_of_mem _ hd))
      rw [gcCooldowns_preserves _ _ _ (by omega), h1]
    · rw [if_neg hgc]
      exact ih _ b T h1 (fun d hd => hle d (List.mem_cons_of_mem _ hd))

/-- C6: when an event at price P1 transitions to FAIL at time `t` (stamping
the 5-minute cooldown on its 10-price-unit bucket), then across any sequence
of further process calls whose times are at most `t + 300000`, no event at
any price in the same bucket can transition to FAIL in a process call at
time `now2 ≤ t + 300000`. -/
theorem C6_fail_cooldown_blocks_bucket (windowMs t : Int) (lp1 : ℚ)
    (M0 : CooldownMap) (e1 : PersistentEvent) (hne1 : e1.state ≠ .FAIL)
    (hfail : ((stepEvent windowMs t lp1 M0 e1).1.map (fun x => x.state)) =
      some .FAIL)
    (calls : List TickCall) (hcalls : ∀ c ∈ calls, c.now ≤ t + 300000)
    (now2 : Int) (lp2 : ℚ) (e2 : PersistentEvent)
    (hb : priceBucket e2.price = priceBucket e1.price)
    (hnow2 : now2 ≤ t + 300000) (hne2 : e2.state ≠ .FAIL) :
    ((stepEvent windowMs now2 lp2
        (runCalls windowMs calls (stepEvent windowMs t lp1 M0 e1).2) e2).1.map
      (fun x => x.state)) ≠ some .FAIL := by
  have h1 : (stepEvent windowMs t lp1 M0 e1).2 (priceBucket e1.price) =
      t + 300000 :=
    stepEvent_fail_sets_cooldown windowMs t lp1 M0 e1 hne1 hfail
  have h2 : runCalls windowMs calls (stepEvent windowMs t lp1 M0 e1).2
      (priceBucket e1.price) = t + 300000 :=
    runCalls_preserves_cooldown windowMs calls _ _ _ h1 hcalls
  apply stepEvent_no_fail_during_cooldown windowMs now2 lp2 _ e2 hne2
  rw [hb, h2]
  exact hnow2

/-- C6 witness: `c6FailEvent` (price 100) fails at t = 400000; after an
intermediate call at 450000 (with cooldown GC firing), the breached mature
event `c6SecondEvent` at price 105 — same bucket 100 — cannot fail at
time 500000 ≤ 700000. -/
theorem C6_fail_cooldown_blocks_bucket_witness :
    ((stepEvent 1800000 500000 90
        (runCalls 1800000 [⟨450000, 90, [], true⟩]
          (stepEvent 1800000 400000 90 (fun _ => 0) c6FailEvent).2) c6SecondEvent).1.map
      (fun x => x.state)) ≠ some .FAIL :=
  C6_fail_cooldown_blocks_bucket 1800000 400000 90 (fun _ => 0) c6FailEvent
    (by with_unfolding_all decide) (by with_unfolding_all rfl)
    [⟨450000, 90, [], true⟩] (by with_unfolding_all decide)
    500000 90 c6SecondEvent (by with_unfolding_all decide)
    (by with_unfolding_all decide) (by with_unfolding_all decide)

/-- Helper: summing a constant over a list. -/
theorem sum_map_const {α : Type} (l : List α) (a : ℚ) :
    (l.map (fun _ => a)).sum = l.length * a := by
  induction l with
  | nil => simp
  | cons x xs ih => simp [ih]; ring

/-- Helper: membership in the inclusive integer range. -/
theorem mem_intRange {lo hi t : Int} : t ∈ intRange lo hi ↔ lo ≤ t ∧ t ≤ hi := by
  unfold intRange
  constructor
  · intro h
    obtain ⟨k, hk, hkt⟩ := List.mem_map.mp h
    have hk2 := List.mem_range.mp hk
    omega
  · intro h
    exact List.mem_map.mpr ⟨(t - lo).toNat, List.mem_range.mpr (by omega), by omega⟩

/-- Helper: the length of the inclusive integer range. -/
theorem intRange_length (lo hi : Int) : (intRange lo hi).length = (hi + 1 - lo).toNat := by
  unfold intRange
  rw [List.length_map, List.length_range]

/-- Helper: with positive candle volumes, `low ≤ high` and a positive tick
size, every distributed contribution is positive. -/
theorem profileContribs_pos (candles : List Candle) (tickSize : ℚ)
    (hts : 0 < tickSize) (hc : ∀ c ∈ candles, 0 < c.volume ∧ c.low ≤ c.high) :
    ∀ x ∈ profileContribs candles tickSize, 0 < x.2 := by
  intro x hx
  unfold profileContribs at hx
  simp only [List.mem_flatMap, List.mem_map] at hx
  obtain ⟨c, hcmem, t, ht, rfl⟩ := hx
  have hcv := hc c hcmem
  have hlh : lowTick tickSize c ≤ highTick tickSize c := by
    unfold lowTick highTick
    have : c.low / tickSize ≤ c.high / tickSize :=
      div_le_div_of_nonneg_right hcv.2 hts.le
    exact Int.floor_le_floor this
  have hnum : 0 < numTicks tickSize c := by
    unfold numTicks
    omega
  have : (0 : ℚ) < ((numTicks tickSize c : Int) : ℚ) := by
    exact_mod_cast hnum
  exact div_pos hcv.1 this

/-- Helper: the distributed contributions of one candle sum to its volume. -/
theorem candle_contribs_sum (tickSize : ℚ) (c : Candle)
    (hlh : lowTick tickSize c ≤ highTick tickSize c) :
    (((intRange (lowTick tickSize c) (highTick tickSize c)).map
      (fun t => (t, c.volume / ((numTicks tickSize c : Int) : ℚ)))).map
        (fun x => x.2)).sum = c.volume := by
  rw [List.map_map]
  have h1 : ((fun (x : Int × ℚ) => x.2) ∘
      (fun t => ((t, c.volume / ((numTicks tickSize c : Int) : ℚ)) : Int × ℚ))) =
      fun _ => c.volume / ((numTicks tickSize c : Int) : ℚ) := rfl
  rw [h1, sum_map_const, intRange_length]
  have hnum : (0 : Int) < numTicks tickSize c := by
    unfold numTicks; omega
  have heq : ((highTick tickSize c + 1 - lowTick tickSize c).toNat : ℚ) =
      ((numTicks tickSize c : Int) : ℚ) := by
    unfold numTicks
    have : ((highTick tickSize c + 1 - lowTick tickSize c).toNat : Int) =
        highTick tickSize c - lowTick tickSize c + 1 := by omega
    exact_mod_cast congrArg (fun z : Int => (z : ℚ)) this
  rw [heq]
  have hne : ((numTicks tickSize c : Int) : ℚ) ≠ 0 := by
    have : (0 : ℚ) < ((numTicks tickSize c : Int) : ℚ) := by exact_mod_cast hnum
    exact ne_of_gt this
  field_simp

/-- Helper: the contributions sum to the total candle volume. -/
theorem profileContribs_sum (candles : List Candle) (tickSize : ℚ)
    (hc : ∀ c ∈ candles, 0 < c.volume ∧ c.low ≤ c.high) (hts : 0 < tickSize) :
    ((profileContribs candles tickSize).map (fun x => x.2)).sum =
      (candles.map (fun c => c.volume)).sum := by
  unfold profileContribs
  induction candles with
  | nil => simp
  | cons c rest ih =>
    simp only [List.flatMap_cons, List.map_append, List.sum_append, List.map_cons,
      List.sum_cons]
    have hcv := hc c (List.mem_cons_self c rest)
    have hlh : lowTick tickSize c ≤ highTick tickSize c := by
      unfold lowTick highTick
      exact Int.floor_le_floor (div_le_div_of_nonneg_right hcv.2 hts.le)
    rw [candle_contribs_sum tickSize c hlh,
      ih (fun d hd => hc d (List.mem_cons_of_mem _ hd))]

/-- Helper: with a non-empty candle list and `low ≤ high`, the contribution
list is non-empty. -/
theorem profileContribs_ne_nil (candles : List Candle) (tickSize : ℚ)
    (hne : candles ≠ []) (hts : 0 < tickSize)
    (hc : ∀ c ∈ candles, 0 < c.volume ∧ c.low ≤ c.high) :
    profileContribs candles tickSize ≠ [] := by
  obtain ⟨c, rest, rfl⟩ := List.exists_cons_of_ne_nil hne
  have hcv := hc c (List.mem_cons_self c rest)
  have hlh : lowTick tickSize c ≤ highTick tickSize c := by
    unfold lowTick highTick
    exact Int.floor_le_floor (div_le_div_of_nonneg_right hcv.2 hts.le)
  have hmem : ((lowTick tickSize c : Int),
      c.volume / ((numTicks tickSize c : Int) : ℚ)) ∈
      profileContribs (c :: rest) tickSize := by
    unfold profileContribs
    refine List.mem_flatMap.mpr ⟨c, List.mem_cons_self c rest, ?_⟩
    exact List.mem_map.mpr ⟨lowTick tickSize c, mem_intRange.mpr ⟨le_refl _, hlh⟩, rfl⟩
  intro h
  rw [h] at hmem
  exact List.not_mem_nil _ hmem

/-- Helper: keys after an upsert. -/
theorem mem_keys_upsertTick (m : List (Int × ℚ)) (t : Int) (v : ℚ) (s : Int) :
    s ∈ (upsertTick m t v).map (fun x => x.1) ↔
      s ∈ m.map (fun x => x.1) ∨ s = t := by
  induction m with
  | nil => simp [upsertTick]
  | cons hd rest ih =>
    by_cases hk : hd.1 = t
    · obtain ⟨a, b⟩ := hd
      simp only at hk
      subst hk
      simp [upsertTick]
      tauto
    · obtain ⟨a, b⟩ := hd
      simp only at hk
      simp only [upsertTick, if_neg hk, List.map_cons, List.mem_cons]
      tauto

/-- Helper: an upsert preserves distinctness of keys. -/
theorem nodup_keys_upsertTick (m : List (Int × ℚ)) (t : Int) (v : ℚ)
    (h : (m.map (fun x => x.1)).Nodup) :
    ((upsertTick m t v).map (fun x => x.1)).Nodup := by
  induction m with
  | nil => simp [upsertTick]
  | cons hd rest ih =>
    obtain ⟨a, b⟩ := hd
    rw [List.map_cons, List.nodup_cons] at h
    by_cases hk : a = t
    · subst hk
      simpa [upsertTick, List.nodup_cons] using h
    · rw [show upsertTick ((a, b) :: rest) t v = (a, b) :: upsertTick rest t v from
        by simp [upsertTick, hk]]
      rw [List.map_cons, List.nodup_cons]
      refine ⟨?_, ih h.2⟩
      intro hmem
      rcases (mem_keys_upsertTick rest t v a).mp hmem with h' | h'
      · exact h.1 h'
      · exact hk h'

/-- Helper: an upsert adds its value to the total. -/
theorem sum_upsertTick (m : List (Int × ℚ)) (t : Int) (v : ℚ) :
    ((upsertTick m t v).map (fun x => x.2)).sum = (m.map (fun x => x.2)).sum + v := by
  induction m with
  | nil => simp [upsertTick]
  | cons hd rest ih =>
    obtain ⟨a, b⟩ := hd
    by_cases hk : a = t
    · subst hk
      simp [upsertTick]
      ring
    · simp only [upsertTick, if_neg hk, List.map_cons, List.sum_cons, ih]
      ring

/-- Helper: an upsert with a positive value preserves positivity. -/
theorem pos_upsertTick (m : List (Int × ℚ)) (t : Int) (v : ℚ)
    (hm : ∀ x ∈ m, 0 < x.2) (hv : 0 < v) :
    ∀ x ∈ upsertTick m t v, 0 < x.2 := by
  induction m with
  | nil =>
    intro x hx
    rw [upsertTick, List.mem_singleton] at hx
    rw [hx]
    exact hv
  | cons hd rest ih =>
    obtain ⟨a, b⟩ := hd
    intro x hx
    rw [upsertTick] at hx
    by_cases hk : a = t
    · rw [if_pos hk] at hx
      rcases List.mem_cons.mp hx with h | h
      · rw [h]
        have hb := hm (a, b) (List.mem_cons_self _ _)
        simp only at hb ⊢
        positivity
      · exact hm x (List.mem_cons_of_mem _ h)
    · rw [if_neg hk] at hx
      rcases List.mem_cons.mp hx with h | h
      · rw [h]
        exact hm (a, b) (List.mem_cons_self _ _)
      · exact ih (fun y hy => hm y (List.mem_cons_of_mem _ hy)) x h

/-- Helper: an upsert never empties the map. -/
theorem upsertTick_ne_nil (m : List (Int × ℚ)) (t : Int) (v : ℚ) :
    upsertTick m t v ≠ [] := by
  cases m with
  | nil => simp [upsertTick]
  | cons hd rest =>
    obtain ⟨a, b⟩ := hd
    by_cases hk : a = t <;> simp [upsertTick, hk]

/-- Helper: every key of an upsert comes from the map or is the new key. -/
theorem key_origin_upsertTick (m : List (Int × ℚ)) (t : Int) (v : ℚ) :
    ∀ x ∈ upsertTick m t v, x.1 ∈ m.map (fun y => y.1) ∨ x.1 = t := by
  intro x hx
  have : x.1 ∈ (upsertTick m t v).map (fun y => y.1) := List.mem_map_of_mem _ hx
  exact (mem_keys_upsertTick m t v x.1).mp this

/-- Helper: the upsert fold preserves key distinctness. -/
theorem nodup_keys_volFold (contribs : List (Int × ℚ)) :
    ∀ (m : List (Int × ℚ)), (m.map (fun x => x.1)).Nodup →
      ((contribs.foldl (fun m tv => upsertTick m tv.1 tv.2) m).map
        (fun x => x.1)).Nodup := by
  induction contribs with
  | nil => intro m h; exact h
  | cons c rest ih =>
    intro m h
    exact ih _ (nodup_keys_upsertTick m c.1 c.2 h)

/-- Helper: the upsert fold accumulates the total of the contributions. -/
theorem sum_volFold (contribs : List (Int × ℚ)) :
    ∀ (m : List (Int × ℚ)),
      ((contribs.foldl (fun m tv => upsertTick m tv.1 tv.2) m).map
        (fun x => x.2)).sum =
      (m.map (fun x => x.2)).sum + (contribs.map (fun x => x.2)).sum := by
  induction contribs with
  | nil => intro m; simp
  | cons c rest ih =>
    intro m
    simp only [List.foldl_cons, List.map_cons, List.sum_cons]
    rw [ih (upsertTick m c.1 c.2), sum_upsertTick]
    ring

/-- Helper: the upsert fold preserves positivity of the values. -/
theorem pos_volFold (contribs : List (Int × ℚ)) (hc : ∀ x ∈ contribs, 0 < x.2) :
    ∀ (m : List (Int × ℚ)), (∀ x ∈ m, 0 < x.2) →
      ∀ x ∈ contribs.foldl (fun m tv => upsertTick m tv.1 tv.2) m, 0 < x.2 := by
  induction contribs with
  | nil => intro m hm; exact hm
  | cons c rest ih =>
    intro m hm
    exact ih (fun y hy => hc y (List.mem_cons_of_mem _ hy)) _
      (pos_upsertTick m c.1 c.2 hm (hc c (List.mem_cons_self _ _)))

/-- Helper: the upsert fold of a non-empty contribution list is non-empty. -/
theorem volFold_ne_nil (contribs : List (Int × ℚ)) :
    ∀ (m : List (Int × ℚ)), m ≠ [] ∨ contribs ≠ [] →
      contribs.foldl (fun m tv => upsertTick m tv.1 tv.2) m ≠ [] := by
  induction contribs with
  | nil =>
    intro m h
    rcases h with h | h
    · exact h
    · exact absurd rfl h
  | cons c rest ih =>
    intro m _
    exact ih _ (Or.inl (upsertTick_ne_nil m c.1 c.2))

/-- Helper: every key of the upsert fold comes from the seed or the
contribution list. -/
theorem key_origin_volFold (contribs : List (Int × ℚ)) :
    ∀ (m : List (Int × ℚ)) (x : Int × ℚ),
      x ∈ contribs.foldl (fun m tv => upsertTick m tv.1 tv.2) m →
      x.1 ∈ m.map (fun y => y.1) ∨ x.1 ∈ contribs.map (fun y => y.1) := by
  induction contribs with
  | nil => intro m x hx; exact Or.inl (List.mem_map_of_mem _ hx)
  | cons c rest ih =>
    intro m x hx
    rcases ih _ x hx with h | h
    · rcases (mem_keys_upsertTick m c.1 c.2 x.1).mp h with h' | h'
      · exact Or.inl h'
      · refine Or.inr ?_
        rw [List.map_cons, h']
        exact List.mem_cons_self _ _
    · exact Or.inr (by rw [List.map_cons]; exact List.mem_cons_of_mem _ h)

/-- Helper: the sorted level list is a permutation of the mapped volume map. -/
theorem profileLevels_perm (candles : List Candle) (tickSize : ℚ) :
    (profileLevels candles tickSize).Perm
      ((volumeMap candles tickSize).map
        (fun tv => (⟨(tv.1 : ℚ) * tickSize, tv.2⟩ : ProfileLevel))) :=
  List.perm_insertionSort levelLE _

/-- Helper: every level volume is positive. -/
theorem profileLevels_pos (candles : List Candle) (tickSize : ℚ)
    (hts : 0 < tickSize) (hc : ∀ c ∈ candles, 0 < c.volume ∧ c.low ≤ c.high) :
    ∀ lv ∈ profileLevels candles tickSize, 0 < lv.volume := by
  intro lv hlv
  have hmem := (profileLevels_perm candles tickSize).mem_iff.mp hlv
  obtain ⟨tv, htv, rfl⟩ := List.mem_map.mp hmem
  exact pos_volFold _ (profileContribs_pos candles tickSize hts hc) [] (by simp) tv htv

/-- Helper: the level volumes sum to the total candle volume. -/
theorem profileLevels_sum (candles : List Candle) (tickSize : ℚ)
    (hts : 0 < tickSize) (hc : ∀ c ∈ candles, 0 < c.volume ∧ c.low ≤ c.high) :
    ((profileLevels candles tickSize).map (fun lv => lv.volume)).sum =
      (candles.map (fun c => c.volume)).sum := by
  have hperm := (profileLevels_perm candles tickSize).map (fun lv => lv.volume)
  rw [hperm.sum_eq, List.map_map]
  have h1 : ((fun (lv : ProfileLevel) => lv.volume) ∘
      (fun (tv : Int × ℚ) => (⟨(tv.1 : ℚ) * tickSize, tv.2⟩ : ProfileLevel))) =
      fun tv => tv.2 := rfl
  rw [h1]
  have h2 := sum_volFold (profileContribs candles tickSize) []
  simp only [List.map_nil, List.sum_nil, zero_add] at h2
  rw [show volumeMap candles tickSize =
    (profileContribs candles tickSize).foldl (fun m tv => upsertTick m tv.1 tv.2) []
    from rfl, h2]
  exact profileContribs_sum candles tickSize hc hts

/-- Helper: the level list is sorted by the ascending-price relation. -/
theorem profileLevels_sorted (candles : List Candle) (tickSize : ℚ) :
    List.Pairwise levelLE (profileLevels candles tickSize) :=
  List.sorted_insertionSort levelLE _

/-- Helper: the level prices are distinct. -/
theorem profileLevels_nodup_price (candles : List Candle) (tickSize : ℚ)
    (hts : 0 < tickSize) :
    ((profileLevels candles tickSize).map (fun lv => lv.price)).Nodup := by
  have hperm := (profileLevels_perm candles tickSize).map (fun lv => lv.price)
  rw [hperm.nodup_iff, List.map_map]
  have h1 : ((fun (lv : ProfileLevel) => lv.price) ∘
      (fun (tv : Int × ℚ) => (⟨(tv.1 : ℚ) * tickSize, tv.2⟩ : ProfileLevel))) =
      (fun (q : Int) => (q : ℚ) * tickSize) ∘ (fun tv => tv.1) := rfl
  rw [h1, ← List.map_map]
  apply List.Nodup.map
  · intro x y hxy
    simp only at hxy
    have := mul_right_cancel₀ (ne_of_gt hts) hxy
    exact_mod_cast this
  · exact nodup_keys_volFold _ [] (by simp)

/-- Helper: strict price ordering along the level list. -/
theorem profileLevels_pairwise_lt (candles : List Candle) (tickSize : ℚ)
    (hts : 0 < tickSize) :
    List.Pairwise (fun a b : ProfileLevel => a.price < b.price)
      (profileLevels candles tickSize) := by
  have hs := profileLevels_sorted candles tickSize
  have hn := profileLevels_nodup_price candles tickSize hts
  rw [List.Nodup, List.pairwise_map] at hn
  exact (hs.and hn).imp (fun h => lt_of_le_of_ne h.1 h.2)

/-- Helper: the level list is non-empty. -/
theorem profileLevels_ne_nil (candles : List Candle) (tickSize : ℚ)
    (hne : candles ≠ []) (hts : 0 < tickSize)
    (hc : ∀ c ∈ candles, 0 < c.volume ∧ c.low ≤ c.high) :
    profileLevels candles tickSize ≠ [] := by
  intro h
  have hperm := profileLevels_perm candles tickSize
  rw [h] at hperm
  have hnil : (volumeMap candles tickSize).map
      (fun tv => (⟨(tv.1 : ℚ) * tickSize, tv.2⟩ : ProfileLevel)) = [] :=
    hperm.symm.eq_nil
  have hvm : volumeMap candles tickSize = [] := List.map_eq_nil_iff.mp hnil
  exact volFold_ne_nil _ []
    (Or.inr (profileContribs_ne_nil candles tickSize hne hts hc)) hvm

/-- Helper: under `tickSize ≤ low`, every level price is at least the tick
size (in particular non-zero). -/
theorem profileLevels_price_pos (candles : List Candle) (tickSize : ℚ)
    (hts : 0 < tickSize) (hlow : ∀ c ∈ candles, tickSize ≤ c.low) :
    ∀ lv ∈ profileLevels candles tickSize, tickSize ≤ lv.price := by
  intro lv hlv
  have hmem := (profileLevels_perm candles tickSize).mem_iff.mp hlv
  obtain ⟨tv, htv, rfl⟩ := List.mem_map.mp hmem
  have hkey := key_origin_volFold (profileContribs candles tickSize) [] tv htv
  simp only [List.map_nil, List.not_mem_nil, false_or] at hkey
  obtain ⟨x, hx, hxt⟩ := List.mem_map.mp hkey
  unfold profileContribs at hx
  obtain ⟨c, hcmem, hx2⟩ := List.mem_flatMap.mp hx
  obtain ⟨t, ht, rfl⟩ := List.mem_map.mp hx2
  simp only at hxt
  have hlow1 : (1 : Int) ≤ lowTick tickSize c := by
    unfold lowTick
    rw [show Rat.floor (c.low / tickSize) = ⌊c.low / tickSize⌋ from rfl]
    rw [Int.le_floor]
    push_cast
    rw [le_div_iff₀ hts]
    simpa using hlow c hcmem
  have ht1 : (1 : Int) ≤ t := le_trans hlow1 (mem_intRange.mp ht).1
  have : (1 : ℚ) ≤ ((tv.1 : Int) : ℚ) := by
    rw [← hxt]
    exact_mod_cast ht1
  calc tickSize = 1 * tickSize := (one_mul tickSize).symm
    _ ≤ ((tv.1 : Int) : ℚ) * tickSize := by
        exact mul_le_mul_of_nonneg_right this hts.le

/-- Helper: an in-bounds JS read succeeds. -/
theorem getLv?_eq_some_of_lt (levels : List ProfileLevel) (i : Int)
    (h0 : 0 ≤ i) (hl : i < (levels.length : Int)) :
    ∃ lv, getLv? levels i = some lv ∧ lv ∈ levels := by
  unfold getLv?
  rw [if_neg (by omega)]
  have hlt : i.toNat < levels.length := by omega
  refine ⟨levels[i.toNat], List.getElem?_eq_getElem hlt, ?_⟩
  exact List.getElem_mem hlt

/-- Helper: a successful JS read is in bounds and is a member. -/
theorem getLv?_bounds (levels : List ProfileLevel) (i : Int) (lv : ProfileLevel)
    (h : getLv? levels i = some lv) :
    0 ≤ i ∧ i < (levels.length : Int) ∧ lv ∈ levels ∧
      ∃ hn : i.toNat < levels.length, levels[i.toNat] = lv := by
  unfold getLv? at h
  by_cases h0 : i < 0
  · rw [if_pos h0] at h
    exact absurd h (by simp)
  · rw [if_neg h0] at h
    obtain ⟨hn, he⟩ := List.getElem?_eq_some.mp h
    refine ⟨by omega, by omega, ?_, hn, he⟩
    rw [← he]
    exact List.getElem_mem hn

/-- Helper: along a strictly price-sorted list, indexed reads are price
monotone. -/
theorem priceMono (levels : List ProfileLevel)
    (hpw : List.Pairwise (fun a b : ProfileLevel => a.price < b.price) levels)
    (i j : Int) (a b : ProfileLevel) (hij : i ≤ j)
    (ha : getLv? levels i = some a) (hb : getLv? levels j = some b) :
    a.price ≤ b.price := by
  obtain ⟨hi0, hil, _, hin, hie⟩ := getLv?_bounds levels i a ha
  obtain ⟨hj0, hjl, _, hjn, hje⟩ := getLv?_bounds levels j b hb
  rcases lt_or_eq_of_le hij with hlt | heq
  · have : i.toNat < j.toNat := by omega
    have := List.pairwise_iff_getElem.mp hpw i.toNat j.toNat hin hjn this
    rw [hie, hje] at this
    exact this.le
  · subst heq
    have : a = b := by rw [← hie, ← hje]
    rw [this]

/-- Helper: the POC fold returns the maximum volume, attained at some level,
as long as all volumes exceed the initial `-1`. -/
theorem pocFold_spec (levels : List ProfileLevel) :
    ∀ (p : ℚ) (m : ℚ),
      (∀ lv ∈ levels, lv.volume ≤ (levels.foldl
        (fun pm l => if l.volume > pm.2 then (l.price, l.volume) else pm) (p, m)).2) ∧
      m ≤ (levels.foldl
        (fun pm l => if l.volume > pm.2 then (l.price, l.volume) else pm) (p, m)).2 ∧
      ((levels.foldl
          (fun pm l => if l.volume > pm.2 then (l.price, l.volume) else pm) (p, m)) =
            (p, m) ∨
        ∃ lv ∈ levels, lv.price = (levels.foldl
          (fun pm l => if l.volume > pm.2 then (l.price, l.volume) else pm) (p, m)).1 ∧
          lv.volume = (levels.foldl
          (fun pm l => if l.volume > pm.2 then (l.price, l.volume) else pm) (p, m)).2) := by
  induction levels with
  | nil => intro p m; exact ⟨by simp, by simp, Or.inl rfl⟩
  | cons hd rest ih =>
    intro p m
    simp only [List.foldl_cons]
    by_cases hgt : hd.volume > m
    · rw [if_pos hgt]
      obtain ⟨h1, h2, h3⟩ := ih hd.price hd.volume
      refine ⟨?_, le_trans hgt.le h2, ?_⟩
      · intro lv hlv
        rcases List.mem_cons.mp hlv with rfl | hmem
        · exact h2
        · exact h1 lv hmem
      · rcases h3 with heq | ⟨lv, hlv, he1, he2⟩
        · rw [heq]
          exact Or.inr ⟨hd, List.mem_cons_self _ _, rfl, rfl⟩
        · exact Or.inr ⟨lv, List.mem_cons_of_mem _ hlv, he1, he2⟩
    · rw [if_neg hgt]
      obtain ⟨h1, h2, h3⟩ := ih p m
      refine ⟨?_, h2, ?_⟩
      · intro lv hlv
        rcases List.mem_cons.mp hlv with rfl | hmem
        · exact le_trans (not_lt.mp hgt) h2
        · exact h1 lv hmem
      · rcases h3 with heq | ⟨lv, hlv, he1, he2⟩
        · exact Or.inl heq
        · exact Or.inr ⟨lv, List.mem_cons_of_mem _ hlv, he1, he2⟩

/-- Helper: `pocFold` on a non-empty positive-volume list attains its result
at a member level and bounds every volume. -/
theorem pocFold_attained (levels : List ProfileLevel) (hne : levels ≠ [])
    (hpos : ∀ lv ∈ levels, 0 < lv.volume) :
    (∃ lv ∈ levels, lv.price = (pocFold levels).1 ∧
      lv.volume = (pocFold levels).2) ∧
    ∀ lv ∈ levels, lv.volume ≤ (pocFold levels).2 := by
  obtain ⟨h1, h2, h3⟩ := pocFold_spec levels 0 (-1)
  refine ⟨?_, h1⟩
  rcases h3 with heq | h
  · obtain ⟨hd, rest, rfl⟩ := List.exists_cons_of_ne_nil hne
    have hhd := h1 hd (List.mem_cons_self _ _)
    have hpd := hpos hd (List.mem_cons_self _ _)
    rw [heq] at hhd
    simp only at hhd
    exact absurd hhd (not_le.mpr (by linarith))
  · exact h

/-- Helper: `findIdx?` with a satisfiable predicate finds the first hit. -/
theorem findIdx?_attains {α : Type} (p : α → Bool) :
    ∀ (l : List α), (∃ x ∈ l, p x = true) →
      ∃ (j : Nat) (y : α), List.findIdx? p l = some j ∧ j < l.length ∧
        l[j]? = some y ∧ p y = true := by
  intro l
  induction l with
  | nil => intro ⟨x, hx, _⟩; exact absurd hx (List.not_mem_nil x)
  | cons a l ih =>
    intro ⟨x, hx, hpx⟩
    by_cases hpa : p a = true
    · exact ⟨0, a, by rw [List.findIdx?_cons, if_pos hpa], by simp, by simp, hpa⟩
    · have hxl : x ∈ l := by
        rcases List.mem_cons.mp hx with rfl | h
        · exact absurd hpx hpa
        · exact h
      obtain ⟨j, y, hfind, hlt, hget, hpy⟩ := ih ⟨x, hxl, hpx⟩
      refine ⟨j + 1, y, ?_, by simpa using Nat.succ_lt_succ hlt, by simpa using hget, hpy⟩
      rw [List.findIdx?_cons, if_neg hpa, List.findIdx?_succ, hfind]
      rfl

/-- Helper: the volume of one in-bounds level as a slice. -/
theorem sliceVol_single (levels : List ProfileLevel) (i : Int) (lv : ProfileLevel)
    (h : getLv? levels i = some lv) : sliceVol levels i i = lv.volume := by
  obtain ⟨h0, hl, _, hn, he⟩ := getLv?_bounds levels i lv h
  unfold sliceVol
  rw [show (i - i + 1).toNat = 1 from by omega]
  rw [List.drop_eq_getElem_cons hn, he]
  simp

/-- Helper: extending a slice upward by one level. -/
theorem sliceVol_extend_upper (levels : List ProfileLevel) (l u : Int)
    (lv : ProfileLevel) (h0 : 0 ≤ l) (hlu : l ≤ u + 1)
    (h : getLv? levels (u + 1) = some lv) :
    sliceVol levels l (u + 1) = sliceVol levels l u + lv.volume := by
  obtain ⟨hu0, hul, _, hn, he⟩ := getLv?_bounds levels (u + 1) lv h
  unfold sliceVol
  rw [show (u + 1 - l + 1).toNat = (u - l + 1).toNat + 1 from by omega]
  rw [List.take_succ]
  have hidx : (levels.drop l.toNat)[(u - l + 1).toNat]? = some lv := by
    rw [List.getElem?_drop]
    rw [show l.toNat + (u - l + 1).toNat = (u + 1).toNat from by omega]
    rw [← he]
    exact List.getElem?_eq_getElem hn
  rw [hidx]
  simp

/-- Helper: extending a slice downward by one level. -/
theorem sliceVol_extend_lower (levels : List ProfileLevel) (l u : Int)
    (lv : ProfileLevel) (h0 : 0 ≤ l - 1) (hlu : l - 1 ≤ u)
    (h : getLv? levels (l - 1) = some lv) :
    sliceVol levels (l - 1) u = lv.volume + sliceVol levels l u := by
  obtain ⟨hl0, hll, _, hn, he⟩ := getLv?_bounds levels (l - 1) lv h
  unfold sliceVol
  rw [List.drop_eq_getElem_cons hn, he]
  rw [show l.toNat = (l - 1).toNat + 1 from by omega]
  rw [show (u - (l - 1) + 1).toNat = (u - l + 1).toNat + 1 from by omega]
  simp [List.take_cons]

/-- Helper: the full-range slice is the total level volume. -/
theorem sliceVol_full (levels : List ProfileLevel) (hne : levels ≠ []) :
    sliceVol levels 0 ((levels.length : Int) - 1) =
      ((levels.map (fun lv => lv.volume)).sum) := by
  unfold sliceVol
  have hlen : (0 : Int) < (levels.length : Int) := by
    cases levels with
    | nil => exact absurd rfl hne
    | cons a l => simp
  rw [show ((levels.length : Int) - 1 - 0 + 1).toNat = levels.length from by omega]
  simp [List.take_length]

/-- Helper: on a strictly positive level list the value-area loop neither
crashes nor runs out of fuel when started inside bounds with the slice sum
as accumulator; it stops at the target volume or at full coverage, only ever
widening the window. -/
theorem vaLoop_spec (levels : List ProfileLevel) (targetVolume : ℚ)
    (hpos : ∀ lv ∈ levels, 0 < lv.volume) :
    ∀ (fuel : Nat) (u l : Int) (cur : ℚ),
      0 ≤ l → l ≤ u → u ≤ (levels.length : Int) - 1 →
      cur = sliceVol levels l u →
      (levels.length : Int) ≤ (fuel : Int) + (u - l) →
      ∃ u' l', vaLoop levels targetVolume fuel u l cur = some (u', l') ∧
        l' ≤ l ∧ 0 ≤ l' ∧ u ≤ u' ∧ u' ≤ (levels.length : Int) - 1 ∧
        (targetVolume ≤ sliceVol levels l' u' ∨
          (l' = 0 ∧ u' = (levels.length : Int) - 1)) := by
  intro fuel
  induction fuel with
  | zero =>
    intro u l cur h0 hlu hub hcur hfuel
    exfalso
    simp only [Nat.cast_zero] at hfuel
    omega
  | succ fuel ih =>
    intro u l cur h0 hlu hub hcur hfuel
    rw [vaLoop]
    by_cases hcond : cur < targetVolume ∧ (u < (levels.length : Int) - 1 ∨ 0 < l)
    · rw [if_pos hcond]
      by_cases hu : u < (levels.length : Int) - 1
      · obtain ⟨lvU, hlvU, hlvUmem⟩ :=
          getLv?_eq_some_of_lt levels (u + 1) (by omega) (by omega)
        rw [if_pos hu, hlvU]
        by_cases hl : 0 < l
        · obtain ⟨lvL, hlvL, hlvLmem⟩ :=
            getLv?_eq_some_of_lt levels (l - 1) (by omega) (by omega)
          rw [if_pos hl, hlvL]
          simp only [Option.map_some']
          by_cases hgt : lvU.volume > lvL.volume
          · rw [if_pos hgt]
            by_cases hbreak : u + 1 = (levels.length : Int) - 1 ∧ l = 0
            · rw [if_pos hbreak]
              exact ⟨u + 1, l, rfl, le_refl l, h0, by omega, by omega,
                Or.inr ⟨hbreak.2, hbreak.1⟩⟩
            · rw [if_neg hbreak]
              obtain ⟨u', l', heq, hp1, hp2, hp3, hp4, hp5⟩ :=
                ih (u + 1) l (cur + lvU.volume) h0 (by omega) (by omega)
                  (by rw [hcur, sliceVol_extend_upper levels l u lvU h0 (by omega) hlvU])
                  (by push_cast at hfuel; omega)
              exact ⟨u', l', heq, hp1, hp2, by omega, hp4, hp5⟩
          · rw [if_neg hgt]
            by_cases hbreak : u = (levels.length : Int) - 1 ∧ l - 1 = 0
            · rw [if_pos hbreak]
              exact ⟨u, l - 1, rfl, by omega, by omega, le_refl u, hub,
                Or.inr ⟨hbreak.2, hbreak.1⟩⟩
            · rw [if_neg hbreak]
              obtain ⟨u', l', heq, hp1, hp2, hp3, hp4, hp5⟩ :=
                ih u (l - 1) (cur + lvL.volume) (by omega) (by omega) hub
                  (by rw [hcur, sliceVol_extend_lower levels l u lvL (by omega) (by omega) hlvL]
                      ring)
                  (by push_cast at hfuel; omega)
              exact ⟨u', l', heq, by omega, hp2, hp3, hp4, hp5⟩
        · rw [if_neg hl]
          simp only [Option.map_some']
          have hposU : (0 : ℚ) < lvU.volume := hpos lvU hlvUmem
          rw [if_pos (by exact hposU)]
          by_cases hbreak : u + 1 = (levels.length : Int) - 1 ∧ l = 0
          · rw [if_pos hbreak]
            exact ⟨u + 1, l, rfl, le_refl l, h0, by omega, by omega,
              Or.inr ⟨hbreak.2, hbreak.1⟩⟩
          · rw [if_neg hbreak]
            obtain ⟨u', l', heq, hp1, hp2, hp3, hp4, hp5⟩ :=
              ih (u + 1) l (cur + lvU.volume) h0 (by omega) (by omega)
                (by rw [hcur, sliceVol_extend_upper levels l u lvU h0 (by omega) hlvU])
                (by push_cast at hfuel; omega)
            exact ⟨u', l', heq, hp1, hp2, by omega, hp4, hp5⟩
      · have hl : 0 < l := by
          rcases hcond.2 with h | h
          · exact absurd h hu
          · exact h
        obtain ⟨lvL, hlvL, hlvLmem⟩ :=
          getLv?_eq_some_of_lt levels (l - 1) (by omega) (by omega)
        rw [if_neg hu, if_pos hl, hlvL]
        simp only [Option.map_some']
        have hposL : (0 : ℚ) < lvL.volume := hpos lvL hlvLmem
        rw [if_neg (by exact not_lt.mpr hposL.le)]
        by_cases hbreak : u = (levels.length : Int) - 1 ∧ l - 1 = 0
        · rw [if_pos hbreak]
          exact ⟨u, l - 1, rfl, by omega, by omega, le_refl u, hub,
            Or.inr ⟨hbreak.2, hbreak.1⟩⟩
        · rw [if_neg hbreak]
          obtain ⟨u', l', heq, hp1, hp2, hp3, hp4, hp5⟩ :=
            ih u (l - 1) (cur + lvL.volume) (by omega) (by omega) hub
              (by rw [hcur, sliceVol_extend_lower levels l u lvL (by omega) (by omega) hlvL]
                  ring)
              (by push_cast at hfuel; omega)
          exact ⟨u', l', heq, by omega, hp2, hp3, hp4, hp5⟩
    · rw [if_neg hcond]
      refine ⟨u, l, rfl, le_refl l, h0, le_refl u, hub, ?_⟩
      rcases not_and_or.mp hcond with hA | hB
      · left
        rw [← hcur]
        exact not_lt.mp hA
      · right
        have h2 := not_or.mp hB
        omega

/-- Helper: two members of a price-nodup list with the same price have equal
volume (they are the same occurrence). -/
theorem eq_of_getElem_price_eq (levels : List ProfileLevel)
    (hpw : List.Pairwise (fun a b : ProfileLevel => a.price < b.price) levels)
    (j k : Nat) (hj : j < levels.length) (hk : k < levels.length)
    (hprice : levels[j].price = levels[k].price) : j = k := by
  rcases Nat.lt_trichotomy j k with h | h | h
  · have := List.pairwise_iff_getElem.mp hpw j k hj hk h
    exact absurd hprice (ne_of_lt this)
  · exact h
  · have := List.pairwise_iff_getElem.mp hpw k j hk hj h
    exact absurd hprice.symm (ne_of_lt this)

set_option maxHeartbeats 1000000 in
/-- Main structural lemma for `calculateProfile` under positive volumes and
`low ≤ high`: it succeeds, and its value area indices straddle the POC with
the slice volume reaching 70% of the total. -/
theorem calculateProfile_spec (candles : List Candle) (tickSize : ℚ)
    (hne : candles ≠ []) (hts : 0 < tickSize)
    (hc : ∀ c ∈ candles, 0 < c.volume ∧ c.low ≤ c.high) :
    ∃ (pm : ProfileMetrics) (u' l' j : Int) (lvU lvL lvP : ProfileLevel),
      calculateProfile candles tickSize = some pm ∧
      pm.levels = profileLevels candles tickSize ∧
      pm.totalVolume = (candles.map (fun c => c.volume)).sum ∧
      getLv? pm.levels u' = some lvU ∧
      getLv? pm.levels l' = some lvL ∧
      getLv? pm.levels j = some lvP ∧
      0 ≤ l' ∧ l' ≤ j ∧ j ≤ u' ∧ u' ≤ ((pm.levels).length : Int) - 1 ∧
      lvP.price = pm.poc ∧
      pm.vah = (if lvU.price = 0 then pm.poc else lvU.price) ∧
      pm.val = (if lvL.price = 0 then pm.poc else lvL.price) ∧
      pm.totalVolume * (7 / 10) ≤ sliceVol pm.levels l' u' := by
  set levels := profileLevels candles tickSize with hlev
  clear_value levels
  have hlpos := profileLevels_pos candles tickSize hts hc
  rw [← hlev] at hlpos
  have hlpw := profileLevels_pairwise_lt candles tickSize hts
  rw [← hlev] at hlpw
  have hlne := profileLevels_ne_nil candles tickSize hne hts hc
  rw [← hlev] at hlne
  have hlsum := profileLevels_sum candles tickSize hts hc
  rw [← hlev] at hlsum
  -- the POC is attained
  obtain ⟨⟨lvP0, hlvP0mem, hlvP0price, hlvP0vol⟩, hmax⟩ :=
    pocFold_attained levels hlne hlpos
  -- findIdx? finds an index with the POC price
  obtain ⟨j, y, hfind, hjlt, hgety, hpy⟩ :=
    findIdx?_attains (fun lv => decide (lv.price = (pocFold levels).1)) levels
      ⟨lvP0, hlvP0mem, decide_eq_true hlvP0price⟩
  have hyprice : y.price = (pocFold levels).1 := of_decide_eq_true hpy
  -- the found level has the maximal volume
  have hyvol : y.volume = (pocFold levels).2 := by
    obtain ⟨k, hk, hkeq⟩ := List.mem_iff_getElem.mp hlvP0mem
    have hjy : levels[j] = y := (List.getElem?_eq_some.mp hgety).2
    have hjk : j = k := by
      apply eq_of_getElem_price_eq levels hlpw j k hjlt hk
      rw [hjy, hkeq, hyprice, hlvP0price]
    subst hjk
    have hylv : y = lvP0 := by rw [← hjy, hkeq]
    rw [hylv, hlvP0vol]
  have hgetlv : getLv? levels (j : Int) = some y := by
    unfold getLv?
    rw [if_neg (by omega)]
    simpa using hgety
  -- run the loop
  obtain ⟨u', l', hloop, hl'le, hl'0, hu'ge, hu'ub, hdisj⟩ :=
    vaLoop_spec levels ((candles.map (fun c => c.volume)).sum * (7 / 10))
      hlpos (2 * levels.length + 4) (j : Int) (j : Int) ((pocFold levels).2)
      (by omega) (le_refl _) (by omega)
      (by rw [← hyvol, sliceVol_single levels (j : Int) y hgetlv])
      (by push_cast; omega)
  obtain ⟨lvU, hlvU, _⟩ := getLv?_eq_some_of_lt levels u' (by omega) (by omega)
  obtain ⟨lvL, hlvL, _⟩ := getLv?_eq_some_of_lt levels l' (by omega) (by omega)
  have htotpos : (0 : ℚ) < (candles.map (fun c => c.volume)).sum := by
    apply List.sum_pos
    · intro x hx
      obtain ⟨c, hcmem, rfl⟩ := List.mem_map.mp hx
      exact (hc c hcmem).1
    · simpa using hne
  have htarget : (candles.map (fun c => c.volume)).sum * (7 / 10) ≤
      sliceVol levels l' u' := by
    rcases hdisj with h | ⟨rfl, rfl⟩
    · exact h
    · rw [sliceVol_full levels hlne, hlsum]
      linarith
  have hpoceq : pocIndexOf levels (pocFold levels).1 = (j : Int) := by
    rw [pocIndexOf, hfind]
  refine ⟨{ levels := levels, poc := (pocFold levels).1,
            vah := priceOr levels u' (pocFold levels).1,
            val := priceOr levels l' (pocFold levels).1,
            totalVolume := (candles.map (fun c => c.volume)).sum,
            sessionHigh := maxQList (candles.map (fun c => c.high)),
            sessionLow := minQList (candles.map (fun c => c.low)) },
          u', l', (j : Int), lvU, lvL, y, ?_, rfl, rfl, hlvU, hlvL, hgetlv,
          hl'0, by omega, by omega, hu'ub, hyprice, ?_, ?_, htarget⟩
  · simp only [calculateProfile]
    rw [if_neg (by simpa using hne), ← hlev, hpoceq, hloop, Option.map_some']
  · show priceOr levels u' (pocFold levels).1 = _
    unfold priceOr
    rw [hlvU]
  · show priceOr levels l' (pocFold levels).1 = _
    unfold priceOr
    rw [hlvL]

/-- C2 counterexample: on `cexC2Candles` — a non-empty candle array containing
a zero-volume candle — `calculateProfile` throws (the value-area expansion
reads `levels[-1]`), so no ProfileMetrics satisfying `val ≤ poc ≤ vah` is
returned; the claim fails for arbitrary non-empty candle arrays with positive
tick size. -/
theorem C2_counterexample :
    ¬ ∃ pm, calculateProfile cexC2Candles 1 = some pm ∧
      (pm.val ≤ pm.poc ∧ pm.poc ≤ pm.vah) := by
  intro h
  obtain ⟨pm, hpm, -⟩ := h
  have hnone : calculateProfile cexC2Candles 1 = none := by with_unfolding_all rfl
  rw [hnone] at hpm
  exact Option.noConfusion hpm

/-- C2 (amended): for every non-empty candle array in which every candle has
positive volume and `low ≤ high`, and every tick size > 0, `calculateProfile`
returns metrics with `val ≤ poc ≤ vah`. -/
theorem C2_val_le_poc_le_vah (candles : List Candle) (tickSize : ℚ)
    (hne : candles ≠ []) (hts : 0 < tickSize)
    (hc : ∀ c ∈ candles, 0 < c.volume ∧ c.low ≤ c.high) :
    ∃ pm, calculateProfile candles tickSize = some pm ∧
      pm.val ≤ pm.poc ∧ pm.poc ≤ pm.vah := by
  obtain ⟨pm, u', l', j, lvU, lvL, lvP, hcp, hlev, htot, hU, hL, hP, h0, hlj, hju,
    hub, hpoc, hvah, hval, htarget⟩ := calculateProfile_spec candles tickSize hne hts hc
  have hpw : List.Pairwise (fun a b : ProfileLevel => a.price < b.price) pm.levels := by
    rw [hlev]
    exact profileLevels_pairwise_lt candles tickSize hts
  refine ⟨pm, hcp, ?_, ?_⟩
  · rw [hval]
    split_ifs with hz
    · exact le_refl _
    · rw [← hpoc]
      exact priceMono pm.levels hpw l' j lvL lvP hlj hL hP
  · rw [hvah]
    split_ifs with hz
    · exact le_refl _
    · rw [← hpoc]
      exact priceMono pm.levels hpw j u' lvP lvU hju hP hU

/-- C2 witness: the amended theorem applied to a single candle spanning
prices 50–51 with volume 4 and tick size 1. -/
theorem C2_val_le_poc_le_vah_witness :
    ∃ pm, calculateProfile c2WitnessCandles 1 = some pm ∧
      pm.val ≤ pm.poc ∧ pm.poc ≤ pm.vah :=
  C2_val_le_poc_le_vah c2WitnessCandles 1 (by with_unfolding_all decide)
    (by with_unfolding_all decide) (by with_unfolding_all decide)

/-- Helper: the slice `levels[l..u]` is bounded by the filtered sum over all
levels whose price lies between the slice endpoints (the extra filtered
levels only add non-negative volume). -/
theorem sliceVol_le_filter_sum (levels : List ProfileLevel) (l u : Int)
    (lvL lvU : ProfileLevel)
    (hpos : ∀ lv ∈ levels, 0 < lv.volume)
    (hpw : List.Pairwise (fun a b : ProfileLevel => a.price < b.price) levels)
    (hlu : l ≤ u)
    (hL : getLv? levels l = some lvL) (hU : getLv? levels u = some lvU) :
    sliceVol levels l u ≤
      ((levels.filter
        (fun lv => decide (lvL.price ≤ lv.price ∧ lv.price ≤ lvU.price))).map
          (fun lv => lv.volume)).sum := by
  obtain ⟨hl0, hll, _, hln, hle⟩ := getLv?_bounds levels l lvL hL
  obtain ⟨hu0, hul, _, hun, hue⟩ := getLv?_bounds levels u lvU hU
  set p : ProfileLevel → Bool :=
    fun lv => decide (lvL.price ≤ lv.price ∧ lv.price ≤ lvU.price) with hp
  set mid : List ProfileLevel := (levels.drop l.toNat).take (u - l + 1).toNat
    with hmid
  have hmidlen : mid.length = (u - l + 1).toNat := by
    rw [hmid, List.length_take, List.length_drop]
    omega
  have hmid_pass : ∀ x ∈ mid, p x = true := by
    intro x hx
    obtain ⟨i, hi, hie⟩ := List.mem_iff_getElem.mp hx
    have hx? : mid[i]? = some x := by rw [List.getElem?_eq_getElem hi, hie]
    have hilt : i < (u - l + 1).toNat := by rw [hmidlen] at hi; omega
    have hlev? : levels[l.toNat + i]? = some x := by
      rw [← hx?, hmid, List.getElem?_take, if_pos hilt, List.getElem?_drop]
    have hgx : getLv? levels (l + (i : Int)) = some x := by
      unfold getLv?
      rw [if_neg (by omega)]
      rw [show (l + (i : Int)).toNat = l.toNat + i from by omega]
      exact hlev?
    have h1 : lvL.price ≤ x.price :=
      priceMono levels hpw l (l + (i : Int)) lvL x (by omega) hL hgx
    have h2 : x.price ≤ lvU.price := by
      apply priceMono levels hpw (l + (i : Int)) u x lvU ?_ hgx hU
      rw [hmidlen] at hi
      omega
    rw [hp]
    exact decide_eq_true ⟨h1, h2⟩
  have hdecomp : levels = levels.take l.toNat ++ (mid ++
      ((levels.drop l.toNat).drop (u - l + 1).toNat)) := by
    rw [hmid, List.take_append_drop, List.take_append_drop]
  have hgoal := hdecomp
  calc sliceVol levels l u = ((mid.map (fun lv => lv.volume)).sum) := rfl
    _ ≤ (((levels.take l.toNat).filter p).map (fun lv => lv.volume)).sum +
        (((mid.filter p).map (fun lv => lv.volume)).sum +
          ((((levels.drop l.toNat).drop (u - l + 1).toNat).filter p).map
            (fun lv => lv.volume)).sum) := by
        rw [List.filter_eq_self.mpr hmid_pass]
        have hn1 : 0 ≤ (((levels.take l.toNat).filter p).map
            (fun lv => lv.volume)).sum := by
          apply List.sum_nonneg
          intro v hv
          obtain ⟨lv, hlv, rfl⟩ := List.mem_map.mp hv
          have := List.mem_of_mem_take (List.mem_filter.mp hlv).1
          exact (hpos lv this).le
        have hn2 : 0 ≤ ((((levels.drop l.toNat).drop (u - l + 1).toNat).filter p).map
            (fun lv => lv.volume)).sum := by
          apply List.sum_nonneg
          intro v hv
          obtain ⟨lv, hlv, rfl⟩ := List.mem_map.mp hv
          have := List.mem_of_mem_drop (List.mem_of_mem_drop
            (List.mem_filter.mp hlv).1)
          exact (hpos lv this).le
        linarith
    _ = ((levels.filter p).map (fun lv => lv.volume)).sum := by
        conv_rhs => rw [hdecomp]
        rw [List.filter_append, List.filter_append, List.map_append,
          List.map_append, List.sum_append, List.sum_append]

/-- C1 counterexample: on `cexC1Candles` (positive volumes, prices at ticks
0, 1, 2) `calculateProfile` succeeds but its value area covers only volume 4
of the total 10 — less than 70%.  The tied first expansion step moves the
lower bound to the price-0 level, and the falsy-price fallback
`levels[lowerIndex]?.price || poc` then snaps `val` from 0 back up to the
POC price 1, so the reported interval `[1, 1]` misses the expanded level. -/
theorem C1_counterexample :
    calculateProfile cexC1Candles 1 = some cexC1Metrics ∧
    valueAreaVolume cexC1Metrics < cexC1Metrics.totalVolume * (7 / 10) := by
  constructor
  · with_unfolding_all rfl
  · with_unfolding_all decide

/-- C1 (amended): for every non-empty candle array in which every candle has
positive volume, `low ≤ high` and `tickSize ≤ low` (so no profile level sits
at the falsy price 0), and every tick size > 0, the levels whose price lies
in `[val, vah]` carry at least 70% of the total volume. -/
theorem C1_value_area_covers_seventy_percent (candles : List Candle) (tickSize : ℚ)
    (hne : candles ≠ []) (hts : 0 < tickSize)
    (hc : ∀ c ∈ candles, 0 < c.volume ∧ c.low ≤ c.high ∧ tickSize ≤ c.low) :
    ∃ pm, calculateProfile candles tickSize = some pm ∧
      pm.totalVolume * (7 / 10) ≤ valueAreaVolume pm := by
  have hc' : ∀ c ∈ candles, 0 < c.volume ∧ c.low ≤ c.high :=
    fun c h => ⟨(hc c h).1, (hc c h).2.1⟩
  obtain ⟨pm, u', l', j, lvU, lvL, lvP, hcp, hlev, htot, hU, hL, hP, h0, hlj, hju,
    hub, hpoc, hvah, hval, htarget⟩ :=
    calculateProfile_spec candles tickSize hne hts hc'
  have hpr := profileLevels_price_pos candles tickSize hts (fun c h => (hc c h).2.2)
  have hpw : List.Pairwise (fun a b : ProfileLevel => a.price < b.price) pm.levels := by
    rw [hlev]
    exact profileLevels_pairwise_lt candles tickSize hts
  have hpos : ∀ lv ∈ pm.levels, 0 < lv.volume := by
    rw [hlev]
    exact profileLevels_pos candles tickSize hts hc'
  have hUz : lvU.price ≠ 0 := by
    have hmem := (getLv?_bounds pm.levels u' lvU hU).2.2.1
    rw [hlev] at hmem
    exact ne_of_gt (lt_of_lt_of_le hts (hpr lvU hmem))
  have hLz : lvL.price ≠ 0 := by
    have hmem := (getLv?_bounds pm.levels l' lvL hL).2.2.1
    rw [hlev] at hmem
    exact ne_of_gt (lt_of_lt_of_le hts (hpr lvL hmem))
  have hvah2 : pm.vah = lvU.price := by rw [hvah, if_neg hUz]
  have hval2 : pm.val = lvL.price := by rw [hval, if_neg hLz]
  refine ⟨pm, hcp, ?_⟩
  unfold valueAreaVolume
  rw [hval2, hvah2]
  calc pm.totalVolume * (7 / 10) ≤ sliceVol pm.levels l' u' := htarget
    _ ≤ _ := sliceVol_le_filter_sum pm.levels l' u' lvL lvU hpos hpw
        (by omega) hL hU

/-- C1 witness: the amended theorem applied to a single candle spanning
prices 100–102 with volume 10 and tick size 1 (its whole profile is the
value area). -/
theorem C1_value_area_covers_seventy_percent_witness :
    ∃ pm, calculateProfile c1WitnessCandles 1 = some pm ∧
      pm.totalVolume * (7 / 10) ≤ valueAreaVolume pm :=
  C1_value_area_covers_seventy_percent c1WitnessCandles 1
    (by with_unfolding_all decide) (by with_unfolding_all decide)
    (by with_unfolding_all decide)
